/-
  Verification of the Voiranime source plugin (src/unnamed/part_001, first
  document; the mobile variant in src/unnamed/part_003 shares the constants
  and adds `_bestJikanMatch`, embedded below as well).

  The JavaScript code is regex-based HTML scraping.  The embedding works on
  `List Char` ("Str" below).  Each JS regex is transcribed as a hand-written
  recursive matcher; the doc comment of each definition names the source
  function or pattern it embeds.  JS strings are UTF-16; all inputs relevant
  here are plain-text HTML, for which `List Char` is a faithful model.
-/
import Mathlib

/-- Character list standing for a JavaScript string. -/
abbrev Str := List Char

/-- Convert a Lean string literal to the `Str` representation. -/
def str (s : String) : Str := s.data

/-- JS `\s` (ASCII part; the fixtures and site markup use no exotic spaces). -/
def isWsChar (c : Char) : Bool :=
  c == ' ' || c == '\t' || c == '\n' || c == '\r' || c == '\x0b' || c == '\x0c'

/-- JS `\d`. -/
def isDigitChar (c : Char) : Bool := '0' ≤ c && c ≤ '9'

/-- JS `\w` = `[A-Za-z0-9_]`. -/
def isWordChar (c : Char) : Bool :=
  ('a' ≤ c && c ≤ 'z') || ('A' ≤ c && c ≤ 'Z') || isDigitChar c || c == '_'

/-- Case-insensitive character comparison (regex flag `i`). -/
def chEqCI (a b : Char) : Bool := a.toLower == b.toLower

/-- Lowercase a character list (JS `toLowerCase`, ASCII range). -/
def lowerStr (st : Str) : Str := st.map Char.toLower

/-- Case-sensitive prefix test. -/
def isPrefixAt : Str → Str → Bool
  | [], _ => true
  | _ :: _, [] => false
  | p :: ps, t :: ts => p == t && isPrefixAt ps ts

/-- Case-insensitive prefix test. -/
def isPrefixCI : Str → Str → Bool
  | [], _ => true
  | _ :: _, [] => false
  | p :: ps, t :: ts => chEqCI p t && isPrefixCI ps ts

/-- Drop a case-sensitive literal from the front, or fail. -/
def dropLit (p t : Str) : Option Str :=
  if isPrefixAt p t then some (t.drop p.length) else none

/-- Drop a case-insensitive literal from the front, or fail. -/
def dropLitCI (p t : Str) : Option Str :=
  if isPrefixCI p t then some (t.drop p.length) else none

/-- Case-sensitive substring test (JS `includes`). -/
def containsSub (p : Str) : Str → Bool
  | [] => isPrefixAt p []
  | t@(_ :: ts) => isPrefixAt p t || containsSub p ts

/-- Case-insensitive substring test. -/
def containsSubCI (p : Str) : Str → Bool
  | [] => isPrefixCI p []
  | t@(_ :: ts) => isPrefixCI p t || containsSubCI p ts

/-- Leftmost regex-match search: try the parser at each position, earliest
    success wins (JS regexes match at the leftmost possible position). -/
def scanFirst (tryAt : Str → Option α) : Str → Option α
  | [] => tryAt []
  | t@(_ :: ts) =>
    match tryAt t with
    | some r => some r
    | none => scanFirst tryAt ts

/-- Lazy `[\s\S]*?` up to a case-insensitive literal: splits at the first
    occurrence of `close`, returning (captured, rest-after-close). -/
def takeUntilLitCI (close : Str) : Str → Option (Str × Str)
  | [] => if isPrefixCI close [] then some ([], []) else none
  | t@(c :: ts) =>
    if isPrefixCI close t then some ([], t.drop close.length)
    else
      match takeUntilLitCI close ts with
      | some (cap, rest) => some (c :: cap, rest)
      | none => none

theorem length_dropWhile_le (p : Char → Bool) (t : Str) :
    (t.dropWhile p).length ≤ t.length := by
  induction t with
  | nil => simp
  | cons c ts ih =>
    simp only [List.dropWhile]
    by_cases h : p c = true
    · simp [h]; omega
    · simp [h]

/-- JS `\s*`. -/
def dropWs (t : Str) : Str := t.dropWhile isWsChar

/-- Quoted value `["']([^"']*)["']`: a quote character (either kind), a run
    free of both quote characters, a closing quote (either kind).  Returns
    (value, rest-after-closing-quote). -/
def readQuoted (t : Str) : Option (Str × Str) :=
  match t with
  | c :: ts =>
    if c == '"' || c == '\'' then
      let notQuote : Char → Bool := fun x => x != '"' && x != '\''
      match ts.dropWhile notQuote with
      | q :: rest' =>
        if q == '"' || q == '\'' then some (ts.takeWhile notQuote, rest') else none
      | [] => none
    else none
  | [] => none

/-- Digit-run to number (`parseInt(s, 10)` on an all-digit capture). -/
def digitsToNat (ds : Str) : Nat :=
  ds.foldl (fun acc c => acc * 10 + (c.toNat - '0'.toNat)) 0

/-- JS `String.prototype.trim`. -/
def jsTrim (t : Str) : Str :=
  ((t.dropWhile (fun c => isWsChar c)).reverse.dropWhile (fun c => isWsChar c)).reverse

/- ── Text Pattern Extractor primitives ─────────────────────────────────── -/

/-- Embeds `stripTags`: `html.replace(/<[^>]*>/g, "").trim()`.  A `<` is
    removed together with everything up to the next `>`; a `<` with no
    closing `>` does not match the regex and stays.  The fuel argument is
    for structural recursion only; every step consumes at least one
    character, so `length + 1` fuel always suffices. -/
def stripTagsGo : Nat → Str → Str
  | 0, _ => []
  | _ + 1, [] => []
  | fuel + 1, '<' :: ts =>
    match ts.dropWhile (fun c => c != '>') with
    | _ :: rest' => stripTagsGo fuel rest'
    | [] => '<' :: ts.takeWhile (fun c => c != '>')
  | fuel + 1, c :: ts => c :: stripTagsGo fuel ts

/-- Embeds `stripTags` (tag removal followed by `trim`). -/
def stripTags (html : Str) : Str := jsTrim (stripTagsGo (html.length + 1) html)

/-- Replace every occurrence of a literal (one JS `replace(/lit/g, rep)`
    pass; passes are applied sequentially as in the source).  Fuel-structural
    as above. -/
def replaceAllLitGo (pat rep : Str) : Nat → Str → Str
  | 0, _ => []
  | _ + 1, [] => []
  | fuel + 1, c :: ts =>
    if isPrefixAt pat (c :: ts) && !pat.isEmpty then
      rep ++ replaceAllLitGo pat rep fuel ((c :: ts).drop pat.length)
    else
      c :: replaceAllLitGo pat rep fuel ts

/-- One JS `replace(/lit/g, rep)` pass. -/
def replaceAllLit (pat rep t : Str) : Str := replaceAllLitGo pat rep (t.length + 1) t

/-- One pass of `replace(/&#(\d+);/g, (_, n) => String.fromCharCode(n))`.
    `String.fromCharCode` truncates to 16 bits; surrogate-range code points
    cannot arise from the fixtures used here and fall back to the
    replacement character.  Fuel-structural as above. -/
def decodeNumericRefsGo : Nat → Str → Str
  | 0, _ => []
  | _ + 1, [] => []
  | fuel + 1, '&' :: '#' :: ts =>
    if (ts.takeWhile isDigitChar).isEmpty then
      '&' :: decodeNumericRefsGo fuel ('#' :: ts)
    else
      match ts.dropWhile isDigitChar with
      | ';' :: rest' =>
        let n := digitsToNat (ts.takeWhile isDigitChar) % 65536
        (if hv : n.isValidChar then Char.ofNatAux n hv else '�') ::
          decodeNumericRefsGo fuel rest'
      | _ => '&' :: decodeNumericRefsGo fuel ('#' :: ts)
  | fuel + 1, c :: ts => c :: decodeNumericRefsGo fuel ts

/-- The numeric character-reference pass of `decodeEntities`. -/
def decodeNumericRefs (t : Str) : Str := decodeNumericRefsGo (t.length + 1) t

/-- Embeds `decodeEntities`: six sequential literal replacements followed by
    the numeric character-reference pass (order as in the source). -/
def decodeEntities (t : Str) : Str :=
  decodeNumericRefs
    (replaceAllLit (str "&#x27;") (str "'")
      (replaceAllLit (str "&#039;") (str "'")
        (replaceAllLit (str "&quot;") (str "\"")
          (replaceAllLit (str "&gt;") (str ">")
            (replaceAllLit (str "&lt;") (str "<")
              (replaceAllLit (str "&amp;") (str "&") t))))))

/- ── Episode-number extraction (`_extractEpisodeNumber`) ───────────────── -/

/-- Strict language markers of pattern (a): `(?:VOSTFR|VF|vostfr|vf)`
    (no `i` flag — only these four exact spellings). -/
def matchMarkerA (t : Str) : Bool :=
  isPrefixAt (str "VOSTFR") t || isPrefixAt (str "VF") t ||
  isPrefixAt (str "vostfr") t || isPrefixAt (str "vf") t

/-- Greedy `(?:x\d+)*` (case-sensitive `x`); fuel-structural. -/
def dropXGroupsGo : Nat → Str → Str
  | 0, t => t
  | fuel + 1, 'x' :: ts =>
    if (ts.takeWhile isDigitChar).isEmpty then 'x' :: ts
    else dropXGroupsGo fuel (ts.dropWhile isDigitChar)
  | _ + 1, t => t

/-- Greedy `(?:x\d+)*` (case-sensitive `x`). -/
def dropXGroups (t : Str) : Str := dropXGroupsGo (t.length + 1) t

/-- Pattern (a) of `_extractEpisodeNumber` tried at one position:
    `[-–]\s*(\d{1,4})(?:x\d+)*\s*(?:VOSTFR|VF|vostfr|vf)`.
    A run of more than four digits can never complete the pattern (the next
    character after at most four digits would still be a digit, matching
    neither `x`, whitespace nor a marker), so the digit run is required to
    have length 1–4. -/
def epPatternAAt (t : Str) : Option Nat :=
  match t with
  | c :: ts =>
    if c == '-' || c == '–' then
      let t1 := dropWs ts
      let ds := t1.takeWhile isDigitChar
      if ds.length ≥ 1 && ds.length ≤ 4 then
        let rest2 := dropWs (dropXGroups (t1.dropWhile isDigitChar))
        if matchMarkerA rest2 then some (digitsToNat ds) else none
      else none
    else none
  | [] => none

/-- Pattern (a) searched over the whole text (leftmost match). -/
def epPatternA (text : Str) : Option Nat := scanFirst epPatternAAt text

/-- Case-insensitive `(?:x\d+)*` for pattern (b) (flag `i`); fuel-structural. -/
def dropXGroupsCIGo : Nat → Str → Str
  | 0, t => t
  | fuel + 1, c :: ts =>
    if chEqCI c 'x' && !(ts.takeWhile isDigitChar).isEmpty then
      dropXGroupsCIGo fuel (ts.dropWhile isDigitChar)
    else c :: ts
  | _ + 1, [] => []

/-- Case-insensitive `(?:x\d+)*` for pattern (b) (flag `i`). -/
def dropXGroupsCI (t : Str) : Str := dropXGroupsCIGo (t.length + 1) t

/-- Pattern (b) of `_extractEpisodeNumber` tried at one position:
    `-(\d{1,4})(?:x\d+)*-(?:vostfr|vf)` with flag `i` (plain hyphen only). -/
def epPatternBAt (t : Str) : Option Nat :=
  match t with
  | '-' :: ts =>
    let ds := ts.takeWhile isDigitChar
    if ds.length ≥ 1 && ds.length ≤ 4 then
      match dropXGroupsCI (ts.dropWhile isDigitChar) with
      | '-' :: rest2 =>
        if isPrefixCI (str "vostfr") rest2 || isPrefixCI (str "vf") rest2 then
          some (digitsToNat ds)
        else none
      | _ => none
    else none
  | _ => none

/-- Pattern (b) searched over the URL (leftmost match). -/
def epPatternB (href : Str) : Option Nat := scanFirst epPatternBAt href

/-- All maximal digit runs of the text (JS `text.match(/\d+/g)`);
    fuel-structural. -/
def digitRunsGo : Nat → Str → List Str
  | 0, _ => []
  | _ + 1, [] => []
  | fuel + 1, c :: ts =>
    if isDigitChar c then
      (c :: ts.takeWhile isDigitChar) :: digitRunsGo fuel (ts.dropWhile isDigitChar)
    else digitRunsGo fuel ts

/-- All maximal digit runs of the text (JS `text.match(/\d+/g)`). -/
def digitRuns (t : Str) : List Str := digitRunsGo (t.length + 1) t

/-- Embeds `VoiranimeSource._extractEpisodeNumber(text, href)`: pattern (a)
    on the visible text, then pattern (b) on the URL, then the last integer
    anywhere in the text, then 0. -/
def extractEpisodeNumber (text href : Str) : Nat :=
  match epPatternA text with
  | some n => n
  | none =>
    match epPatternB href with
    | some n => n
    | none =>
      match (digitRuns text).getLast? with
      | some ds => digitsToNat ds
      | none => 0

/- ── URL helpers ───────────────────────────────────────────────────────── -/

/-- One position of `_slugFromUrl`'s regex `\/anime\/([^/]+)\/?$`:
    `/anime/`, a nonempty slash-free segment, an optional final `/`, end. -/
def slugAt (t : Str) : Option Str :=
  match dropLit (str "/anime/") t with
  | none => none
  | some rest =>
    let seg := rest.takeWhile (fun c => c != '/')
    if seg.isEmpty then none
    else
      match rest.dropWhile (fun c => c != '/') with
      | [] => some seg
      | ['/'] => some seg
      | _ => none

/-- Embeds `VoiranimeSource._slugFromUrl`. -/
def slugFromUrl (url : Str) : Option Str := scanFirst slugAt url

/-- One position of `_episodeIdFromUrl`'s regex `\/anime\/(.+?)\/?$`: the
    lazy capture must still reach the end of the string, so it is the whole
    suffix after `/anime/` minus an optional final `/` (kept when dropping
    it would empty the capture); `.` does not match a newline. -/
def episodeIdAt (t : Str) : Option Str :=
  match dropLit (str "/anime/") t with
  | none => none
  | some rest =>
    if rest.isEmpty then none
    else
      let cap0 := if rest.getLast? == some '/' then rest.dropLast else rest
      let cap := if cap0.isEmpty then rest else cap0
      if cap.contains '\n' then none else some cap

/-- Embeds `VoiranimeSource._episodeIdFromUrl`: regex capture, then
    `replace(/\/+$/, "")`; the URL itself if the regex does not match. -/
def episodeIdFromUrl (url : Str) : Str :=
  match scanFirst episodeIdAt url with
  | some cap => (cap.reverse.dropWhile (fun c => c == '/')).reverse
  | none => url

/-- Embeds the humanized-slug fallback title: every hyphen replaced by a
    space, then `replace(/\b\w/g, (c) => c.toUpperCase())`. -/
def humanizeGo : Bool → Str → Str
  | _, [] => []
  | prevW, c :: ts =>
    (if isWordChar c && !prevW then c.toUpper else c) :: humanizeGo (isWordChar c) ts

/-- Humanized slug title (hyphens to spaces, word-initial letters upcased). -/
def humanizeSlug (slug : Str) : Str :=
  humanizeGo false (slug.map (fun c => if c == '-' then ' ' else c))

/- ── Generic tag/attribute matchers ────────────────────────────────────── -/

/-- Global regex loop (JS `exec` with flag `g` / `matchAll`): at each
    position try the pattern; on a match emit its capture and resume after
    the match, otherwise advance one character.  Patterns used here never
    match the empty string, so `length + 1` fuel suffices. -/
def matchesGo (tryAt : Str → Option (α × Str)) : Nat → Str → List α
  | 0, _ => []
  | _ + 1, [] => []
  | fuel + 1, t@(_ :: ts) =>
    match tryAt t with
    | some (cap, rest) => cap :: matchesGo tryAt fuel rest
    | none => matchesGo tryAt fuel ts

/-- All matches of a pattern over a text (JS global regex). -/
def allMatches (tryAt : Str → Option (α × Str)) (t : Str) : List α :=
  matchesGo tryAt (t.length + 1) t

/-- Attribute pattern `name\s*=\s*["']([^"']*)["']` tried at one position
    (attribute names in the source regexes are matched case-insensitively
    via flag `i`). -/
def attrValAt (name : Str) (t : Str) : Option (Str × Str) :=
  match dropLitCI name t with
  | none => none
  | some r1 =>
    match dropWs r1 with
    | '=' :: r2 => readQuoted (dropWs r2)
    | _ => none

/-- All positions inside a tag (scanning stops at `>`) where
    `name\s*=\s*["']V["']` parses and `V` satisfies `pred`; ordered by
    position.  Greedy `[^>]*` backtracking in the source regexes selects the
    LAST such position, i.e. `.getLast?` of this list. -/
def tagAttrCandidatesGo (name : Str) (pred : Str → Bool) : Nat → Str → List (Str × Str)
  | 0, _ => []
  | _ + 1, [] => []
  | fuel + 1, t@(c :: ts) =>
    if c == '>' then []
    else
      match attrValAt name t with
      | some (v, rest) =>
        if pred v then (v, rest) :: tagAttrCandidatesGo name pred fuel ts
        else tagAttrCandidatesGo name pred fuel ts
      | none => tagAttrCandidatesGo name pred fuel ts

/-- Last parse of `[^>]*name\s*=\s*["']V["']` with `pred V`, inside a tag
    (greedy `[^>]*` semantics). -/
def findTagAttr (name : Str) (pred : Str → Bool) (t : Str) : Option (Str × Str) :=
  (tagAttrCandidatesGo name pred (t.length + 1) t).getLast?

/-- Tail of the tag `[^>]*>`: skip to the closing `>`, fail if none. -/
def closeTag (t : Str) : Option Str :=
  match t.dropWhile (fun c => c != '>') with
  | '>' :: r => some r
  | _ => none

/- ── Episode list parser (`getEpisodes`) ───────────────────────────────── -/

/-- One position of the episode-list item regex
    `<li\s[^>]*class\s*=\s*["'][^"']*wp-manga-chapter[^"']*["'][^>]*>([\s\S]*?)<\/li>`
    (flag `i`): returns (inner capture, rest after `</li>`). -/
def tryLiAt (t : Str) : Option (Str × Str) :=
  match dropLitCI (str "<li") t with
  | none => none
  | some (c :: r1) =>
    if isWsChar c then
      match findTagAttr (str "class") (containsSubCI (str "wp-manga-chapter")) r1 with
      | some (_, r2) =>
        match closeTag r2 with
        | some r3 => takeUntilLitCI (str "</li>") r3
        | none => none
      | none => none
    else none
  | some [] => none

/-- One position of the anchor regex
    `<a\s[^>]*href\s*=\s*["']([^"']+)["'][^>]*>([\s\S]*?)<\/a>` (flag `i`):
    returns ((href, inner), rest after `</a>`). -/
def tryAAt (t : Str) : Option ((Str × Str) × Str) :=
  match dropLitCI (str "<a") t with
  | none => none
  | some (c :: r1) =>
    if isWsChar c then
      match findTagAttr (str "href") (fun v => !v.isEmpty) r1 with
      | some (href, r2) =>
        match closeTag r2 with
        | some r3 =>
          match takeUntilLitCI (str "</a>") r3 with
          | some (inner, rest) => some ((href, inner), rest)
          | none => none
        | none => none
      | none => none
    else none
  | some [] => none

/-- First anchor match inside a fragment (non-global `match`). -/
def firstAMatch (t : Str) : Option (Str × Str) :=
  scanFirst (fun u => (tryAAt u).map Prod.fst) t

/-- An `EpisodeRef` as produced by `getEpisodes`. -/
structure EpisodeRef where
  id : Str
  number : Nat
  title : Str
deriving Repr, DecidableEq

/-- Loop body of `getEpisodes` for one `wp-manga-chapter` item: the first
    anchor's href (entity-decoded) and stripped text give id, number and
    title; items without an anchor are skipped (`continue`). -/
def parseEpisodeItem (liHtml : Str) : Option EpisodeRef :=
  match firstAMatch liHtml with
  | none => none
  | some (href0, inner) =>
    let href := decodeEntities href0
    let epText := stripTags inner
    some { id := episodeIdFromUrl href
           number := extractEpisodeNumber epText href
           title := epText }

/-- All `wp-manga-chapter` item captures of the page, in document order. -/
def liCaptures (html : Str) : List Str := allMatches tryLiAt html

/-- Embeds the parsing part of `VoiranimeSource.getEpisodes`: collect items
    in document order, then `episodes.reverse()`. -/
def getEpisodesFromHtml (html : Str) : List EpisodeRef :=
  ((liCaptures html).filterMap parseEpisodeItem).reverse

/-- Embeds `VoiranimeSource.getEpisodes`.  The page fetch is modelled as an
    `Option`: `none` stands for a network error or non-2xx response, on
    which the source throws (`Except.error`). -/
def getEpisodes (_animeId : Str) (page : Option Str) : Except Str (List EpisodeRef) :=
  match page with
  | none => Except.error (str "Failed to fetch anime page")
  | some html => Except.ok (getEpisodesFromHtml html)

/- ── Embedded source table (`_parseChapterSources`) ────────────────────── -/

/-- Does the text begin with `\}\s*;` (the end of the lazy capture)? -/
def braceSemiAt (t : Str) : Bool :=
  match t with
  | '}' :: r =>
    match dropWs r with
    | ';' :: _ => true
    | _ => false
  | _ => false

/-- Lazy `(.+?)` with flag `s` up to `\}\s*;`: the shortest nonempty capture
    followed by a closing brace, whitespace and a semicolon. -/
def lazyCaptureGo (acc : Str) : Str → Option Str
  | [] => none
  | c :: ts =>
    if !acc.isEmpty && braceSemiAt (c :: ts) then some acc.reverse
    else lazyCaptureGo (c :: acc) ts

/-- One position of `var\s+thisChapterSources\s*=\s*\{(.+?)\}\s*;` (flag
    `s`, case-sensitive): returns the captured object body. -/
def chapterSourcesAt (t : Str) : Option Str :=
  match dropLit (str "var") t with
  | none => none
  | some (c :: r1) =>
    if isWsChar c then
      match dropLit (str "thisChapterSources") (dropWs r1) with
      | none => none
      | some r2 =>
        match dropWs r2 with
        | '=' :: r3 =>
          match dropWs r3 with
          | '{' :: r4 => lazyCaptureGo [] r4
          | _ => none
        | _ => none
    else none
  | some [] => none

/-- Escaped JSON-ish string body `((?:[^"\\]|\\.)*)` up to the closing
    double quote: returns (raw value with escapes, rest after quote). -/
def escValue : Str → Option (Str × Str)
  | '"' :: r => some ([], r)
  | '\\' :: c :: r => (escValue r).map (fun p => ('\\' :: c :: p.1, p.2))
  | c :: r => if c == '\\' then none else (escValue r).map (fun p => (c :: p.1, p.2))
  | [] => none

/-- One position of the entry regex `"([^"]+)"\s*:\s*"((?:[^"\\]|\\.)*)"`
    (global, case-sensitive): returns ((name, raw value), rest). -/
def tryEntryAt (t : Str) : Option ((Str × Str) × Str) :=
  match t with
  | '"' :: r1 =>
    let name := r1.takeWhile (fun c => c != '"')
    if name.isEmpty then none
    else
      match r1.dropWhile (fun c => c != '"') with
      | '"' :: r2 =>
        match dropWs r2 with
        | ':' :: r3 =>
          match dropWs r3 with
          | '"' :: r4 =>
            match escValue r4 with
            | some (v, rest) => some ((name, v), rest)
            | none => none
          | _ => none
        | _ => none
      | _ => none
  | _ => none

/-- The four sequential unescaping passes applied to an entry value
    (escaped slash, escaped quote, `\n`, `\t`). -/
def unescapeValue (v : Str) : Str :=
  replaceAllLit (str "\\t") (str "\t")
    (replaceAllLit (str "\\n") (str "\n")
      (replaceAllLit (str "\\\"") (str "\"")
        (replaceAllLit (str "\\/") (str "/") v)))

/-- Embeds the captcha marker test `/recaptcha|captcha/i.test(value)`. -/
def captchaTest (v : Str) : Bool :=
  containsSubCI (str "recaptcha") v || containsSubCI (str "captcha") v

/-- Positions of `src=["']V["']` with nonempty `V` inside an iframe tag
    (scanning stops at `>`), ordered by position. -/
def srcEqCandidatesGo : Nat → Str → List Str
  | 0, _ => []
  | _ + 1, [] => []
  | fuel + 1, t@(c :: ts) =>
    if c == '>' then []
    else
      match dropLitCI (str "src=") t with
      | some r =>
        match readQuoted r with
        | some (v, _) =>
          if v.isEmpty then srcEqCandidatesGo fuel ts
          else v :: srcEqCandidatesGo fuel ts
        | none => srcEqCandidatesGo fuel ts
      | none => srcEqCandidatesGo fuel ts

/-- Embeds `/<iframe[^>]+src=["']([^"']+)["']/i` over a fragment: leftmost
    `<iframe` with at least one following non-`>` character admitting a
    `src=` match; greedy `[^>]+` selects the last admissible `src=`. -/
def iframeSrcInFragment (frag : Str) : Option Str :=
  scanFirst
    (fun t =>
      match dropLitCI (str "<iframe") t with
      | none => none
      | some (c :: r1) =>
        if c == '>' then none
        else (srcEqCandidatesGo (r1.length + 1) r1).getLast?
      | some [] => none)
    frag

/-- Protocol-relative URL normalization
    `if (u.startsWith("//")) u = "https:" + u`. -/
def normalizeProtocol (u : Str) : Str :=
  if isPrefixAt (str "//") u then str "https:" ++ u else u

/-- The provider priority list `HOST_PRIORITY`. -/
def HOST_PRIORITY : List Str :=
  [str "vidmoly", str "voe", str "f16px", str "streamtape", str "mail.ru"]

/-- Embeds `HOST_PRIORITY.findIndex((h) => url.toLowerCase().includes(h))`,
    with the `-1` branch mapped to `HOST_PRIORITY.length` as in the sort
    comparator. -/
def hostIdx (url : Str) : Nat :=
  match HOST_PRIORITY.findIdx? (fun h => containsSub h (lowerStr url)) with
  | some i => i
  | none => HOST_PRIORITY.length

/-- An entry of the embedded source table: `{ name, url }`. -/
structure SourceEntry where
  name : Str
  url : Str
deriving Repr, DecidableEq

/-- The sort comparator `(a, b) => aIdx - bIdx` as a boolean order. -/
def sourceLe (a b : SourceEntry) : Bool := hostIdx a.url ≤ hostIdx b.url

/-- Insert before the first element not strictly below (stable insert). -/
def insertLe (le : α → α → Bool) (x : α) : List α → List α
  | [] => [x]
  | y :: ys => if le x y then x :: y :: ys else y :: insertLe le x ys

/-- Stable sort by a boolean total preorder.  `Array.prototype.sort` with a
    consistent comparator is a stable sort (ES2019); for a total preorder a
    stable sort's output is unique, so this structurally recursive insertion
    sort computes exactly the source's sort. -/
def stableSortLe (le : α → α → Bool) : List α → List α
  | [] => []
  | x :: xs => insertLe le x (stableSortLe le xs)

/-- The candidates collected by `_parseChapterSources` before sorting:
    per entry, unescape the value, discard captcha-marked fragments, mine
    the fragment for an iframe `src`, normalize the protocol. -/
def collectSource (nv : Str × Str) : Option SourceEntry :=
  let v := unescapeValue nv.2
  if captchaTest v then none
  else
    match iframeSrcInFragment v with
    | none => none
    | some u => some { name := nv.1, url := normalizeProtocol u }

/-- The entry matches of the embedded source table (empty when the
    `thisChapterSources` object is absent). -/
def chapterEntries (html : Str) : List (Str × Str) :=
  match scanFirst chapterSourcesAt html with
  | none => []
  | some raw => allMatches tryEntryAt raw

/-- The candidates collected by `_parseChapterSources` before sorting, in
    encounter order. -/
def chapterCandidates (html : Str) : List SourceEntry :=
  (chapterEntries html).filterMap collectSource

/-- Embeds `VoiranimeSource._parseChapterSources`: collect candidates in
    encounter order, then the stable sort by host-priority index. -/
def parseChapterSources (html : Str) : List SourceEntry :=
  stableSortLe sourceLe (chapterCandidates html)

/- ── Provider extraction rules (`_resolveEmbedUrl` and helpers) ────────── -/

/-- Quoted capture `["']([^"']+\.EXT[^"']*)["']` at one position: the value
    must contain the extension at index at least 1 (greedy `[^"']+`
    backtracking; the capture is the whole quoted run). -/
def quotedWithExt (ext : Str) (t : Str) : Option Str :=
  match readQuoted t with
  | some (v, _) =>
    match v with
    | [] => none
    | _ :: vs => if containsSubCI ext vs then some v else none
  | none => none

/-- Expect one literal character. -/
def eatCh (c : Char) (t : Str) : Option Str :=
  match t with
  | x :: r => if x == c then some r else none
  | [] => none

/-- Vidmoly pattern 1 at one position:
    `sources\s*:\s*\[\s*\{\s*file\s*:\s*["']([^"']+\.m3u8[^"']*)["']` (`i`). -/
def vidmolyPat1At (t : Str) : Option Str := do
  let r1 ← dropLitCI (str "sources") t
  let r2 ← eatCh ':' (dropWs r1)
  let r3 ← eatCh '[' (dropWs r2)
  let r4 ← eatCh '{' (dropWs r3)
  let r5 ← dropLitCI (str "file") (dropWs r4)
  let r6 ← eatCh ':' (dropWs r5)
  quotedWithExt (str ".m3u8") (dropWs r6)

/-- Vidmoly pattern 2 at one position:
    `source\s*:\s*["']([^"']+\.m3u8[^"']*)["']` (`i`). -/
def vidmolyPat2At (t : Str) : Option Str := do
  let r1 ← dropLitCI (str "source") t
  let r2 ← eatCh ':' (dropWs r1)
  quotedWithExt (str ".m3u8") (dropWs r2)

/-- Vidmoly pattern 3 at one position:
    `file\s*:\s*["']([^"']+\.m3u8[^"']*)["']` (`i`). -/
def vidmolyPat3At (t : Str) : Option Str := do
  let r1 ← dropLitCI (str "file") t
  let r2 ← eatCh ':' (dropWs r1)
  quotedWithExt (str ".m3u8") (dropWs r2)

/-- URL character class `[^\s"'<>\\]` of `_extractGenericVideoUrl`'s bare
    patterns (`noBackslash = true`) and `[^\s"'<>]` of
    `_findVideoInScripts`'s (`noBackslash = false`). -/
def isUrlChar (noBackslash : Bool) (c : Char) : Bool :=
  !isWsChar c && c != '"' && c != '\'' && c != '<' && c != '>' &&
    (!noBackslash || c != '\\')

/-- Bare URL pattern `(https?:\/\/CLASS+\.EXT CLASS*)` at one position
    (flag `i`).  The greedy run after `://` is maximal; the pattern matches
    when the run contains the extension at index at least 1, and the capture
    is the original text of scheme plus run. -/
def bareUrlPatAt (noBackslash : Bool) (ext : Str) (t : Str) : Option Str := do
  let r1 ← dropLitCI (str "http") t
  let (sLen, r2) :=
    match dropLitCI (str "s") r1 with
    | some r => (1, r)
    | none => (0, r1)
  let r3 ← dropLitCI (str "://") r2
  let run := r3.takeWhile (isUrlChar noBackslash)
  match run with
  | [] => none
  | _ :: rs =>
    if containsSubCI ext rs then some (t.take (4 + sLen + 3 + run.length))
    else none

/-- Keyword pattern
    `(?:KEYWORDS)\s*[:=]\s*["']([^"']+\.EXT[^"']*)["']` at one position
    (flag `i`): regex alternation tries the keywords in source order. -/
def keywordPatAt (keywords : List Str) (ext : Str) (t : Str) : Option Str :=
  match keywords with
  | [] => none
  | k :: ks =>
    match
      (do
        let r1 ← dropLitCI k t
        let r2 := dropWs r1
        let r3 ←
          match eatCh ':' r2 with
          | some r => some r
          | none => eatCh '=' r2
        quotedWithExt ext (dropWs r3) : Option Str)
    with
    | some v => some v
    | none => keywordPatAt ks ext t

/-- The keyword list of `_extractGenericVideoUrl`. -/
def genericKeywords : List Str :=
  [str "file", str "source", str "src", str "video_url", str "videoUrl"]

/-- The keyword list of `_findVideoInScripts`. -/
def scriptsKeywords : List Str :=
  [str "file", str "source", str "src", str "url", str "video_url"]

/-- Shared pattern cascade of `_extractGenericVideoUrl` and
    `_findVideoInScripts`: keyword`.m3u8`, keyword`.mp4`, bare`.m3u8`,
    bare`.mp4`, each over the whole text, first match returned with
    protocol normalization. -/
def genericCascade (keywords : List Str) (noBackslash : Bool) (html : Str) : Option Str :=
  match scanFirst (keywordPatAt keywords (str ".m3u8")) html with
  | some u => some (normalizeProtocol u)
  | none =>
    match scanFirst (keywordPatAt keywords (str ".mp4")) html with
    | some u => some (normalizeProtocol u)
    | none =>
      match scanFirst (bareUrlPatAt noBackslash (str ".m3u8")) html with
      | some u => some (normalizeProtocol u)
      | none =>
        match scanFirst (bareUrlPatAt noBackslash (str ".mp4")) html with
        | some u => some (normalizeProtocol u)
        | none => none

/-- Embeds `VoiranimeSource._extractGenericVideoUrl`. -/
def extractGenericVideoUrl (html : Str) : Option Str :=
  genericCascade genericKeywords true html

/-- Embeds `VoiranimeSource._findVideoInScripts` (same cascade with the
    `url` keyword instead of `videoUrl` and no backslash exclusion). -/
def findVideoInScripts (html : Str) : Option Str :=
  genericCascade scriptsKeywords false html

/-- Embeds `VoiranimeSource._extractVidmoly`: three m3u8 patterns (returned
    without protocol normalization), then the generic extractor. -/
def extractVidmoly (html : Str) : Option Str :=
  match scanFirst vidmolyPat1At html with
  | some u => some u
  | none =>
    match scanFirst vidmolyPat2At html with
    | some u => some u
    | none =>
      match scanFirst vidmolyPat3At html with
      | some u => some u
      | none => extractGenericVideoUrl html

/-- Single-quoted nonempty capture `'([^']+)'` at one position. -/
def singleQuotedAt (t : Str) : Option Str := do
  let r1 ← eatCh '\'' t
  let v := r1.takeWhile (fun c => c != '\'')
  if v.isEmpty then none
  else
    let _ ← eatCh '\'' (r1.dropWhile (fun c => c != '\''))
    some v

/-- Double-quoted nonempty capture `"([^"]+)"` at one position. -/
def doubleQuotedAt (t : Str) : Option Str := do
  let r1 ← eatCh '"' t
  let v := r1.takeWhile (fun c => c != '"')
  if v.isEmpty then none
  else
    let _ ← eatCh '"' (r1.dropWhile (fun c => c != '"'))
    some v

/-- Voe key pattern `'KEY'\s*:\s*'([^']+)'` (single-quote form, flag `i`). -/
def voeSingleAt (key : Str) (t : Str) : Option Str := do
  let r1 ← eatCh '\'' t
  let r2 ← dropLitCI key r1
  let r3 ← eatCh '\'' r2
  let r4 ← eatCh ':' (dropWs r3)
  singleQuotedAt (dropWs r4)

/-- Voe key pattern `"KEY"\s*:\s*"([^"]+)"` (double-quote form, flag `i`). -/
def voeDoubleAt (key : Str) (t : Str) : Option Str := do
  let r1 ← eatCh '"' t
  let r2 ← dropLitCI key r1
  let r3 ← eatCh '"' r2
  let r4 ← eatCh ':' (dropWs r3)
  doubleQuotedAt (dropWs r4)

/-- Voe pattern `prompt\s*\(\s*"Node"\s*,\s*"([^"]+)"` (flag `i`). -/
def voePromptAt (t : Str) : Option Str := do
  let r1 ← dropLitCI (str "prompt") t
  let r2 ← eatCh '(' (dropWs r1)
  let r3 ← dropLitCI (str "\"Node\"") (dropWs r2)
  let r4 ← eatCh ',' (dropWs r3)
  doubleQuotedAt (dropWs r4)

/-- Embeds `VoiranimeSource._extractVoe`: five ordered patterns with
    protocol normalization, then the generic extractor. -/
def extractVoe (html : Str) : Option Str :=
  match scanFirst (voeSingleAt (str "hls")) html with
  | some u => some (normalizeProtocol u)
  | none =>
    match scanFirst (voeDoubleAt (str "hls")) html with
    | some u => some (normalizeProtocol u)
    | none =>
      match scanFirst (voeSingleAt (str "mp4")) html with
      | some u => some (normalizeProtocol u)
      | none =>
        match scanFirst (voeDoubleAt (str "mp4")) html with
        | some u => some (normalizeProtocol u)
        | none =>
          match scanFirst voePromptAt html with
          | some u => some (normalizeProtocol u)
          | none => extractGenericVideoUrl html

/-- Embeds `VoiranimeSource._resolveEmbedUrl`.  The embed page fetch is an
    oracle `embedFetch : url -> Option html`; `none` stands for a network
    error (caught, returns null) or a non-2xx response. -/
def resolveEmbedUrl (embedFetch : Str → Option Str) (embedUrl : Str) : Option Str :=
  match embedFetch embedUrl with
  | none => none
  | some html =>
    let urlLower := lowerStr embedUrl
    if containsSub (str "vidmoly") urlLower then extractVidmoly html
    else if containsSub (str "voe") urlLower then extractVoe html
    else extractGenericVideoUrl html

/- ── Remaining video strategies and `getVideoUrl` ──────────────────────── -/

/-- One position of the page iframe regex
    `<iframe\s[^>]*(?:src|data-src)\s*=\s*["']([^"']+)["'][^>]*>` (global,
    flag `i`): returns (raw src, rest after the tag).  Greedy `[^>]*`
    selects the last `src`-anchored attribute inside the tag; a `data-src`
    attribute is found through its `src` suffix with the same value. -/
def tryIframeAt (t : Str) : Option (Str × Str) :=
  match dropLitCI (str "<iframe") t with
  | none => none
  | some (c :: r1) =>
    if isWsChar c then
      match findTagAttr (str "src") (fun v => !v.isEmpty) (c :: r1) with
      | some (v, r2) =>
        match closeTag r2 with
        | some rest => some (v, rest)
        | none => none
      | none => none
    else none
  | some [] => none

/-- The filter of `_findIframeVideo`'s loop: skip `about:blank` and known
    ad/social third parties (a nonempty capture cannot be falsy). -/
def iframeAcceptable (src : Str) : Bool :=
  !(src == str "about:blank") && !containsSub (str "google.com") src &&
    !containsSub (str "facebook.com") src

/-- Embeds `VoiranimeSource._findIframeVideo`: first acceptable iframe src
    in document order, protocol-normalized. -/
def findIframeVideo (html : Str) : Option Str :=
  (((allMatches tryIframeAt html).filter iframeAcceptable).head?).map normalizeProtocol

/-- CMS id pattern `"KEY"\s*:\s*"?(\d+)"?` (case-sensitive) searched over
    the page; returns the digit capture. -/
def findCmsId (keyLit : Str) (html : Str) : Option Str :=
  scanFirst
    (fun t => do
      let r1 ← dropLit keyLit t
      let r2 ← eatCh ':' (dropWs r1)
      let r3 := dropWs r2
      let r4 := match r3 with
                | '"' :: x => x
                | x => x
      let ds := r4.takeWhile isDigitChar
      if ds.isEmpty then none else some ds)
    html

/-- Embeds `VoiranimeSource._tryAjaxReadingContent`.  The follow-up POST is
    an oracle `ajaxFetch : mangaId -> chapterId -> Option fragment`; `none`
    stands for a network error (caught) or non-2xx response.  A blank
    fragment falls through to null as in the source. -/
def tryAjaxReadingContent (html : Str) (ajaxFetch : Str → Str → Option Str) : Option Str :=
  match findCmsId (str "\"manga_id\"") html with
  | none => none
  | some mangaId =>
    match findCmsId (str "\"chapter_id\"") html with
    | none => none
    | some chapterId =>
      match ajaxFetch mangaId chapterId with
      | none => none
      | some frag =>
        if (jsTrim frag).isEmpty then none else findIframeVideo frag

/-- One position of `<source\s[^>]*src\s*=\s*["']([^"']+)["']` (flag `i`). -/
def sourceSrcAt (t : Str) : Option Str :=
  match dropLitCI (str "<source") t with
  | none => none
  | some (c :: r1) =>
    if isWsChar c then (findTagAttr (str "src") (fun v => !v.isEmpty) (c :: r1)).map Prod.fst
    else none
  | some [] => none

/-- Video pattern 1 at one position:
    `<video[^>]*>[\s\S]*?<source\s[^>]*src\s*=\s*["']([^"']+)["']` (`i`). -/
def videoPat1At (t : Str) : Option Str := do
  let r1 ← dropLitCI (str "<video") t
  let r2 ← closeTag r1
  scanFirst sourceSrcAt r2

/-- Video pattern 2 at one position:
    `<video\s[^>]*src\s*=\s*["']([^"']+)["']` (`i`). -/
def videoPat2At (t : Str) : Option Str :=
  match dropLitCI (str "<video") t with
  | none => none
  | some (c :: r1) =>
    if isWsChar c then (findTagAttr (str "src") (fun v => !v.isEmpty) (c :: r1)).map Prod.fst
    else none
  | some [] => none

/-- The strategy-4 native video tag match
    (`html.match(p1) || html.match(p2)`), no protocol normalization. -/
def videoTagUrl (html : Str) : Option Str :=
  match scanFirst videoPat1At html with
  | some u => some u
  | none => scanFirst videoPat2At html

/-- The object returned by `getVideoUrl`.  `headers` always equals
    `{ Referer: referer }` in the source, kept as the single field
    `headersReferer`; `type` is present (`"iframe"`) only in the
    iframe-mode result; `sources` is present only for strategy 1. -/
structure ResolvedVideo where
  url : Str
  type : Option Str
  referer : Str
  headersReferer : Str
  subtitles : List Str
  sources : Option (List SourceEntry)
deriving Repr, DecidableEq

/-- The strategy-1 inner loop: first source whose embed resolves to a
    direct URL, returned with that source's url. -/
def firstResolved (resolve : Str → Option Str) : List SourceEntry → Option (Str × Str)
  | [] => none
  | s :: rest =>
    match resolve s.url with
    | some d => some (d, s.url)
    | none => firstResolved resolve rest

/-- The episode page URL `${BASE}/anime/${episodeId}/`. -/
def pageUrl (episodeId : Str) : Str :=
  str "https://v6.voiranime.com/anime/" ++ episodeId ++ str "/"

/-- Embeds `VoiranimeSource.getVideoUrl`.  The page fetch is an `Option`
    (`none` = network error or non-2xx, on which the source throws); the
    embed-page and AJAX fetches are oracles as above. -/
def getVideoUrl (episodeId : Str) (page : Option Str) (embedFetch : Str → Option Str)
    (ajaxFetch : Str → Str → Option Str) : Except Str ResolvedVideo :=
  match page with
  | none => Except.error (str "Failed to fetch episode page")
  | some html =>
    let url := pageUrl episodeId
    match parseChapterSources html with
    | s0 :: _ =>
      match firstResolved (resolveEmbedUrl embedFetch) (parseChapterSources html) with
      | some (direct, srcUrl) =>
        Except.ok { url := direct, type := none, referer := srcUrl,
                    headersReferer := srcUrl, subtitles := [],
                    sources := some (parseChapterSources html) }
      | none =>
        Except.ok { url := s0.url, type := some (str "iframe"), referer := url,
                    headersReferer := url, subtitles := [],
                    sources := some (parseChapterSources html) }
    | [] =>
      match findIframeVideo html with
      | some u =>
        Except.ok { url := u, type := none, referer := url, headersReferer := url,
                    subtitles := [], sources := none }
      | none =>
        match tryAjaxReadingContent html ajaxFetch with
        | some u =>
          Except.ok { url := u, type := none, referer := url, headersReferer := url,
                      subtitles := [], sources := none }
        | none =>
          match videoTagUrl html with
          | some u =>
            Except.ok { url := u, type := none, referer := url, headersReferer := url,
                        subtitles := [], sources := none }
          | none =>
            match findVideoInScripts html with
            | some u =>
              Except.ok { url := u, type := none, referer := url, headersReferer := url,
                          subtitles := [], sources := none }
            | none => Except.error (str "Could not find video URL on episode page")

/-- Decidable equality for `Except` results over decidable components. -/
instance instDecEqExcept [DecidableEq ε] [DecidableEq α] : DecidableEq (Except ε α) :=
  fun a b =>
    match a, b with
    | Except.ok x, Except.ok y =>
      if h : x = y then isTrue (by rw [h]) else isFalse (fun hh => h (Except.ok.inj hh))
    | Except.error x, Except.error y =>
      if h : x = y then isTrue (by rw [h]) else isFalse (fun hh => h (Except.error.inj hh))
    | Except.ok _, Except.error _ => isFalse Except.noConfusion
    | Except.error _, Except.ok _ => isFalse Except.noConfusion

/- ── Search parsers (`search`, `_parseSearchResults`, `_searchWpFallback`) ─ -/

/-- A `CatalogEntry` as produced by the search parsers. -/
structure CatalogEntry where
  id : Str
  title : Str
  cover : Str
  type : Str
  year : Option Nat
deriving Repr, DecidableEq

/-- Shared de-dup loop shape of the entity parsers: a per-match builder
    yields `(derived id, entity)` or nothing (degrade by omission); an
    entity whose id is already in the seen set is silently dropped, first
    occurrence wins; the seen set and output list are threaded through as
    the source mutates them in place. -/
def dedupLoop (f : β → Option (Str × α)) :
    List β → List Str → List α → List Str × List α
  | [], seen, out => (seen, out)
  | m :: ms, seen, out =>
    match f m with
    | none => dedupLoop f ms seen out
    | some (key, e) =>
      if seen.contains key then dedupLoop f ms seen out
      else dedupLoop f ms (key :: seen) (out ++ [e])

/-- One position of the search link regex
    `<a\s[^>]*href\s*=\s*["']([^"']*\/anime\/[^"']*)["'][^>]*>([\s\S]*?)<\/a>`
    (global, flag `i`). -/
def tryLinkAt (t : Str) : Option ((Str × Str) × Str) :=
  match dropLitCI (str "<a") t with
  | none => none
  | some (c :: r1) =>
    if isWsChar c then
      match findTagAttr (str "href") (containsSub (str "/anime/")) (c :: r1) with
      | some (href, r2) =>
        match closeTag r2 with
        | some r3 =>
          match takeUntilLitCI (str "</a>") r3 with
          | some (inner, rest) => some ((href, inner), rest)
          | none => none
        | none => none
      | none => none
    else none
  | some [] => none

/-- First `<h3[^>]*>([\s\S]*?)<\/h3>` capture (flag `i`). -/
def h3At (t : Str) : Option Str := do
  let r1 ← dropLitCI (str "<h3") t
  let r2 ← closeTag r1
  let p ← takeUntilLitCI (str "</h3>") r2
  some p.1

/-- Loop body of `_parseSearchResults` for one link match: decode the href,
    derive the slug (or skip), then the title fallback chain — `<h3>` text,
    stripped link text, humanized slug. -/
def searchEntity (m : Str × Str) : Option (Str × CatalogEntry) :=
  let link := decodeEntities m.1
  match slugFromUrl link with
  | none => none
  | some slug =>
    let t1 := match scanFirst h3At m.2 with
              | some inner => stripTags inner
              | none => []
    let t2 := if t1.isEmpty then stripTags m.2 else t1
    let title := if t2.isEmpty then humanizeSlug slug else t2
    some (slug, { id := slug, title := decodeEntities title, cover := [],
                  type := str "TV", year := none })

/-- Embeds `VoiranimeSource._parseSearchResults` (seen set and result list
    threaded as in the source). -/
def parseSearchResults (html : Str) (seen : List Str) (out : List CatalogEntry) :
    List Str × List CatalogEntry :=
  dedupLoop searchEntity (allMatches tryLinkAt html) seen out

/-- One position of the fallback link regex
    `<a\s[^>]*href\s*=\s*["']([^"']*\/anime\/[^"']*)["'][^>]*>` (global,
    flag `i`; no inner capture, no closing tag required). -/
def tryLinkOpenAt (t : Str) : Option (Str × Str) :=
  match dropLitCI (str "<a") t with
  | none => none
  | some (c :: r1) =>
    if isWsChar c then
      match findTagAttr (str "href") (containsSub (str "/anime/")) (c :: r1) with
      | some (href, r2) =>
        match closeTag r2 with
        | some rest => some (href, rest)
        | none => none
      | none => none
    else none
  | some [] => none

/-- Loop body of `_searchWpFallback`: slug-derived entity with humanized
    title only (degraded metadata). -/
def fallbackEntity (href0 : Str) : Option (Str × CatalogEntry) :=
  match slugFromUrl (decodeEntities href0) with
  | none => none
  | some slug =>
    some (slug, { id := slug, title := humanizeSlug slug, cover := [],
                  type := str "TV", year := none })

/-- Embeds the parsing part of `_searchWpFallback` (own seen set). -/
def searchWpFallbackFromHtml (html : Str) : List CatalogEntry :=
  (dedupLoop fallbackEntity (allMatches tryLinkOpenAt html) [] []).2

/-- Embeds `VoiranimeSource._searchWpFallback`: a transport failure (caught
    exception or non-2xx, modelled as `none`) returns the empty list. -/
def searchWpFallback (page : Option Str) : List CatalogEntry :=
  match page with
  | none => []
  | some html => searchWpFallbackFromHtml html

/-- Per-channel body of `search`: a caught network error or non-2xx
    response yields the empty string, a fetched body is trimmed
    (`html.trim() || ""`). -/
def channelHtml (o : Option Str) : Str :=
  match o with
  | none => []
  | some h => jsTrim h

/-- The channel phase of `search`: the two Ajax Search Pro channels
    (VOSTFR id 3 first, VF id 2 second) are parsed in fixed channel order
    with one shared seen set; a channel whose fetch failed or trimmed to
    empty is skipped (`if (html) ...`). -/
def searchChannels (ch3 ch2 : Option Str) : List Str × List CatalogEntry :=
  let h3html := channelHtml ch3
  let h2html := channelHtml ch2
  let s1 := if h3html.isEmpty then ([], []) else parseSearchResults h3html [] []
  if h2html.isEmpty then s1 else parseSearchResults h2html s1.1 s1.2

/-- Embeds `VoiranimeSource.search`: the WP fallback runs only when both
    channels produced zero entities.  All transport failures are swallowed,
    so the result is always a plain list. -/
def search (ch3 ch2 : Option Str) (fallbackPage : Option Str) : List CatalogEntry :=
  if (searchChannels ch3 ch2).2.isEmpty then searchWpFallback fallbackPage
  else (searchChannels ch3 ch2).2

/- ── Latest episodes parser (`getLatestEpisodes`) ──────────────────────── -/

/-- Does `class\s*=\s*["'][^"']*page-item-detail` match at this position
    inside a tag region (used by the card-boundary lookahead)? -/
def classMarkerAt (marker t : Str) : Bool :=
  match dropLitCI (str "class") t with
  | none => false
  | some r1 =>
    match dropWs r1 with
    | '=' :: r2 =>
      match dropWs r2 with
      | q :: r3 =>
        (q == '"' || q == '\'') &&
          containsSubCI marker (r3.takeWhile (fun c => c != '"' && c != '\''))
      | [] => false
    | _ => false

/-- The card-boundary lookahead
    `(?=<div[^>]*class\s*=\s*["'][^"']*page-item-detail|$)`: `<div`, then a
    `class` attribute whose quoted value contains the marker, found before
    the tag's `>`. -/
def nextCardAheadGo : Nat → Str → Bool
  | 0, _ => false
  | _ + 1, [] => false
  | fuel + 1, t@(c :: ts) =>
    if c == '>' then false
    else classMarkerAt (str "page-item-detail") t || nextCardAheadGo fuel ts

/-- Does the card-boundary lookahead hold at this position? -/
def nextCardAhead (t : Str) : Bool :=
  match dropLitCI (str "<div") t with
  | none => false
  | some r1 => nextCardAheadGo (r1.length + 1) r1

/-- Lazy `([\s\S]*?)` up to the card boundary or end of input: returns
    (capture, rest at the unconsumed lookahead position). -/
def cardCapture : Str → Str × Str
  | [] => ([], [])
  | t@(c :: ts) =>
    if nextCardAhead t then ([], t)
    else
      let p := cardCapture ts
      (c :: p.1, p.2)

/-- One position of the card regex of `getLatestEpisodes`:
    `class\s*=\s*["'][^"']*page-item-detail[^"']*["'][^>]*>([\s\S]*?)(?=...)`
    (global, flag `i`). -/
def tryCardAt (t : Str) : Option (Str × Str) :=
  match attrValAt (str "class") t with
  | some (v, r1) =>
    if containsSubCI (str "page-item-detail") v then
      match closeTag r1 with
      | some r2 => some (cardCapture r2)
      | none => none
    else none
  | none => none

/-- First anchor after a class-marked block: common shape of the card's
    title and chapter sub-regexes
    `class\s*=\s*["'][^"']*MARKER[^"']*["'] ... <a\s[^>]*href\s*=\s*["'](..)["'][^>]*>(..)<\/a>`.
    `withCloseTag` distinguishes the title shape (which requires `[^>]*>`
    after the class attribute) from the chapter shape (which goes straight
    to `[\s\S]*?<a`). -/
def classAnchorAt (pred : Str → Bool) (withCloseTag : Bool) (t : Str) : Option (Str × Str) :=
  match attrValAt (str "class") t with
  | some (v, r1) =>
    if pred v then
      if withCloseTag then
        match closeTag r1 with
        | some r2 => scanFirst (fun u => (tryAAt u).map Prod.fst) r2
        | none => none
      else scanFirst (fun u => (tryAAt u).map Prod.fst) r1
    else none
  | none => none

/-- The card's title match: marker `post-title`, close-tag form. -/
def cardTitleMatch (card : Str) : Option (Str × Str) :=
  scanFirst (classAnchorAt (containsSubCI (str "post-title")) true) card

/-- The card's chapter match: marker alternation `(?:list-chapter|chapter)`,
    no close-tag (`[\s\S]*?` directly after the class value). -/
def cardChapterMatch (card : Str) : Option (Str × Str) :=
  scanFirst
    (classAnchorAt
      (fun v => containsSubCI (str "list-chapter") v || containsSubCI (str "chapter") v)
      false)
    card

/-- The card's rating match
    `class\s*=\s*["'][^"']*(?:total_votes|score|rating)[^"']*["'][^>]*>([\s\S]*?)<\/`:
    returns the raw capture. -/
def ratingMatchAt (t : Str) : Option Str :=
  match attrValAt (str "class") t with
  | some (v, r1) =>
    if containsSubCI (str "total_votes") v || containsSubCI (str "score") v ||
        containsSubCI (str "rating") v then
      match closeTag r1 with
      | some r2 => (takeUntilLitCI (str "</") r2).map Prod.fst
      | none => none
    else none
  | none => none

/-- A `LatestEpisodeEntry` as produced by `getLatestEpisodes`.
    `ratingText` holds the stripped text handed to `parseFloat`; the float
    conversion itself (`parseFloat`/`isNaN`) is not modelled, and no claim
    touches the parsed rating. -/
structure LatestEntry where
  id : Str
  title : Str
  cover : Str
  type : Str
  year : Option Nat
  ratingText : Option Str
  latestEpisode : Option Nat
  latestEpisodeId : Option Str
deriving Repr, DecidableEq

/-- Loop body of `getLatestEpisodes` for one card: title anchor required
    (else `continue`), slug derived from its href, latest-episode fields
    from the chapter anchor when present, rating text when present. -/
def latestEntity (card : Str) : Option (Str × LatestEntry) :=
  match cardTitleMatch card with
  | none => none
  | some (href0, inner) =>
    let animeUrl := decodeEntities href0
    let title := decodeEntities (stripTags inner)
    match slugFromUrl animeUrl with
    | none => none
    | some slug =>
      let ep :=
        match cardChapterMatch card with
        | some (epHref0, epInner) =>
          let epHref := decodeEntities epHref0
          let epText := stripTags epInner
          (some (extractEpisodeNumber epText epHref), some (episodeIdFromUrl epHref))
        | none => (none, none)
      some (slug, { id := slug, title := title, cover := [], type := str "TV",
                    year := none,
                    ratingText := (scanFirst ratingMatchAt card).map stripTags,
                    latestEpisode := ep.1, latestEpisodeId := ep.2 })

/-- Embeds the parsing part of `getLatestEpisodes`. -/
def parseLatestFromHtml (html : Str) : List LatestEntry :=
  (dedupLoop latestEntity (allMatches tryCardAt html) [] []).2

/-- Embeds `VoiranimeSource.getLatestEpisodes`: the whole body is inside a
    try/catch whose handler returns the empty list, so a transport failure
    (`none`: network error, or non-2xx on which the source throws inside
    the try) yields `[]`. -/
def getLatestEpisodes (page : Option Str) : List LatestEntry :=
  match page with
  | none => []
  | some html => parseLatestFromHtml html

/- ── Detail page parser (`getAnimeInfo`) ───────────────────────────────── -/

/-- Lazy `[\s\S]*?` up to either of two case-insensitive literals. -/
def takeUntilEitherCI (c1 c2 : Str) : Str → Option (Str × Str)
  | [] => none
  | t@(c :: ts) =>
    if isPrefixCI c1 t then some ([], t.drop c1.length)
    else if isPrefixCI c2 t then some ([], t.drop c2.length)
    else
      match takeUntilEitherCI c1 c2 ts with
      | some (cap, rest) => some (c :: cap, rest)
      | none => none

/-- One position of the detail title regex
    `class\s*=\s*["'][^"']*post-title[^"']*["'][^>]*>\s*<h[13][^>]*>([\s\S]*?)<\/h[13]>`
    (flag `i`). -/
def animeTitleAt (t : Str) : Option Str :=
  match attrValAt (str "class") t with
  | some (v, r1) =>
    if containsSubCI (str "post-title") v then
      match closeTag r1 with
      | none => none
      | some r2 =>
        let r3 := dropWs r2
        match
          (match dropLitCI (str "<h1") r3 with
           | some r => some r
           | none => dropLitCI (str "<h3") r3)
        with
        | none => none
        | some r4 =>
          match closeTag r4 with
          | none => none
          | some r5 => (takeUntilEitherCI (str "</h1>") (str "</h3>") r5).map Prod.fst
    else none
  | none => none

/-- One position of `<span[^>]*>[\s\S]*?<\/span>` (flag `i`): rest after
    the closing tag. -/
def spanAt (t : Str) : Option Str := do
  let r1 ← dropLitCI (str "<span") t
  let r2 ← closeTag r1
  let p ← takeUntilLitCI (str "</span>") r2
  some p.2

/-- The badge removal `titleHtml.replace(span-regex, "")` (global);
    fuel-structural. -/
def removeSpansGo : Nat → Str → Str
  | 0, _ => []
  | _ + 1, [] => []
  | fuel + 1, t@(c :: ts) =>
    match spanAt t with
    | some rest => removeSpansGo fuel rest
    | none => c :: removeSpansGo fuel ts

/-- The badge removal pass over a title fragment. -/
def removeSpans (t : Str) : Str := removeSpansGo (t.length + 1) t

/-- The lookahead `(?=<div\s|$)` of the content-item regex. -/
def divWsAhead (t : Str) : Bool :=
  match dropLitCI (str "<div") t with
  | some (c :: _) => isWsChar c
  | _ => false

/-- Lazy `([\s\S]*?)` up to `(?=<div\s|$)`. -/
def captureUntilDivWs : Str → Str × Str
  | [] => ([], [])
  | t@(c :: ts) =>
    if divWsAhead t then ([], t)
    else
      let p := captureUntilDivWs ts
      (c :: p.1, p.2)

/-- One position of the content-item regex
    `class\s*=\s*["'][^"']*(?:post-content_item|summary-content)[^"']*["'][^>]*>([\s\S]*?)(?=<div\s|$)`
    (global, flag `i`). -/
def tryContentItemAt (t : Str) : Option (Str × Str) :=
  match attrValAt (str "class") t with
  | some (v, r1) =>
    if containsSubCI (str "post-content_item") v || containsSubCI (str "summary-content") v then
      match closeTag r1 with
      | some r2 => some (captureUntilDivWs r2)
      | none => none
    else none
  | none => none

/-- One position of the heading regex
    `(?:summary-heading|<h5)[^>]*>([\s\S]*?)<\/` (flag `i`). -/
def headingAt (t : Str) : Option Str :=
  match
    (match dropLitCI (str "summary-heading") t with
     | some r => some r
     | none => dropLitCI (str "<h5") t)
  with
  | none => none
  | some r1 =>
    match closeTag r1 with
    | some r2 => (takeUntilLitCI (str "</") r2).map Prod.fst
    | none => none

/-- One position of the value regex `summary-content[^>]*>([\s\S]*?)<\/`
    (flag `i`). -/
def contentValAt (t : Str) : Option Str := do
  let r1 ← dropLitCI (str "summary-content") t
  let r2 ← closeTag r1
  (takeUntilLitCI (str "</") r2).map Prod.fst

/-- First `\d{4}` match: four consecutive digits, `parseInt` base 10. -/
def firstFourDigits (v : Str) : Option Nat :=
  scanFirst
    (fun t =>
      if (t.takeWhile isDigitChar).length ≥ 4 then some (digitsToNat (t.take 4))
      else none)
    v

/-- The type/year accumulation loop over content items: a `type`-labelled
    item overwrites the type, a year/date-labelled item with a four-digit
    number overwrites the year; items without heading or content are
    skipped. -/
def detailTypeYear : List Str → Str × Option Nat → Str × Option Nat
  | [], acc => acc
  | item :: rest, acc =>
    match scanFirst headingAt item with
    | none => detailTypeYear rest acc
    | some heading =>
      let label := lowerStr (stripTags heading)
      match scanFirst contentValAt item with
      | none => detailTypeYear rest acc
      | some content =>
        let value := stripTags content
        if containsSub (str "type") label then detailTypeYear rest (value, acc.2)
        else if containsSub (str "année") label || containsSub (str "year") label ||
            containsSub (str "date") label then
          match firstFourDigits value with
          | some y => detailTypeYear rest (acc.1, some y)
          | none => detailTypeYear rest acc
        else detailTypeYear rest acc

/-- A `DetailRecord` as produced by `getAnimeInfo`. -/
structure DetailRecord where
  id : Str
  title : Str
  cover : Str
  type : Str
  year : Option Nat
deriving Repr, DecidableEq

/-- The pure parsing part of `getAnimeInfo`: humanized-slug default title
    overridden by the post-title heading (span badges removed, empty strip
    falls back), type/year from the content items, `cover || ""`. -/
def parseAnimeDetail (animeId html cover : Str) : DetailRecord :=
  let defaultTitle := humanizeSlug animeId
  let title :=
    match scanFirst animeTitleAt html with
    | some titleHtml =>
      let cleaned := stripTags (removeSpans titleHtml)
      if cleaned.isEmpty then defaultTitle else cleaned
    | none => defaultTitle
  let ty := detailTypeYear (allMatches tryContentItemAt html) (str "TV", none)
  { id := animeId, title := decodeEntities title, cover := cover,
    type := ty.1, year := ty.2 }

/-- Embeds `VoiranimeSource.getAnimeInfo` (part_001 first document, lines
    429-482).  The whole body is inside a try/catch returning null: a
    non-2xx page fetch returns null inside the try (`page = none` also
    stands for a network exception reaching the catch), and an exception
    thrown during the cover lookup (`coverRes = Except.error`) reaches the
    catch.  Only a successful fetch with a non-throwing cover lookup yields
    a record. -/
def getAnimeInfo (animeId : Str) (page : Option Str) (coverRes : Except Str Str) :
    Option DetailRecord :=
  match page with
  | none => none
  | some html =>
    match coverRes with
    | Except.error _ => none
    | Except.ok cover => some (parseAnimeDetail animeId html cover)

/- ── Tiered cover cache (`_cacheGet` / `_cacheSet`) ────────────────────── -/

/-- A cache entry `{ key, cover, at: Date.now() }`.  `recordedAt` is the
    source's `at` field (a JS timestamp in milliseconds). -/
structure CacheEntry where
  key : Str
  cover : Str
  recordedAt : Int
deriving Repr, DecidableEq

/-- `COVER_TTL = 86400000 * 7` (7 days, part_001 first document). -/
def COVER_TTL : Int := 86400000 * 7

/-- `COVER_ERROR_TTL = 10000` (10 s). -/
def COVER_ERROR_TTL : Int := 10000

/-- The TTL class of an entry: `e.cover ? COVER_TTL : COVER_ERROR_TTL`
    (an empty string is falsy). -/
def entryTtl (e : CacheEntry) : Int :=
  if e.cover.isEmpty then COVER_ERROR_TTL else COVER_TTL

/-- A cache tier as a key-indexed partial map. -/
def CacheMap : Type := Str → Option CacheEntry

/-- Point update of a tier. -/
def mapSet (m : CacheMap) (k : Str) (e : CacheEntry) : CacheMap :=
  fun x => if x = k then some e else m x

/-- The IndexedDB half of `_cacheGet`: on a durable hit within TTL the
    entry is promoted into the memory tier. -/
def cacheGetDb (mem db : CacheMap) (now : Int) (key : Str) :
    Option CacheEntry × CacheMap :=
  match db key with
  | some stored =>
    if now - stored.recordedAt < entryTtl stored then (some stored, mapSet mem key stored)
    else (none, mem)
  | none => (none, mem)

/-- Embeds `_cacheGet`: memory tier first (TTL class by emptiness of the
    stored value), then the durable tier with promotion.  Returns the hit
    (or `none`) and the possibly-updated memory tier; expired entries are
    not removed (lazy eviction). -/
def cacheGet (mem db : CacheMap) (now : Int) (key : Str) :
    Option CacheEntry × CacheMap :=
  match mem key with
  | some m =>
    if now - m.recordedAt < entryTtl m then (some m, mem)
    else cacheGetDb mem db now key
  | none => cacheGetDb mem db now key

/-- Embeds `_cacheSet`: always write the memory tier; persist to the
    durable tier only for non-empty covers (`if (cover) _dbSet(...)`).
    The source calls `Date.now()` once for the memory entry and once inside
    `_dbSet`; both are modelled by the single instant `now`. -/
def cacheSet (mem db : CacheMap) (now : Int) (key cover : Str) : CacheMap × CacheMap :=
  let e : CacheEntry := { key := key, cover := cover, recordedAt := now }
  (mapSet mem key e, if cover.isEmpty then db else mapSet db key e)

/- ── Jikan rate limiter (`_jikanAcquire` / `_jikanRelease`) ────────────── -/

/-- `JIKAN_CONCURRENCY = 3` (part_001 first document). -/
def JIKAN_CONCURRENCY : Int := 3

/-- `JIKAN_DELAY_MS = 200`. -/
def JIKAN_DELAY_MS : Int := 200

/-- Where a task suspended inside `_jikanAcquire`:
    `whileCheck` is the top of the `while` poll loop (also the entry
    point), `afterSpacing` is the resumption point after the spacing sleep
    `await setTimeout(JIKAN_DELAY_MS - elapsed)` — the source increments
    unconditionally there, with no re-check of either condition. -/
inductive AcqPhase where
  | whileCheck
  | afterSpacing
deriving Repr, DecidableEq

/-- The timer queue and shared limiter state under the single-threaded JS
    event loop: `queue` holds pending resumptions `(wakeTime, taskId,
    phase)` in registration order; `grants` records `(taskId, grantTime)`
    in grant order. -/
structure LimiterSim where
  inFlight : Int
  lastStart : Int
  now : Int
  queue : List (Int × Nat × AcqPhase)
  grants : List (Nat × Int)
deriving Repr, DecidableEq

/-- Extract the due timer: minimal wake time, ties by registration order
    (JS timer semantics). -/
def extractMin : List (Int × Nat × AcqPhase) →
    Option ((Int × Nat × AcqPhase) × List (Int × Nat × AcqPhase))
  | [] => none
  | e :: rest =>
    match extractMin rest with
    | none => some (e, [])
    | some (m, others) =>
      if e.1 ≤ m.1 then some (e, rest) else some (m, e :: others)

/-- One event-loop step of the acquire protocol, translated line by line
    from `_jikanAcquire`:
    at `whileCheck`, if `_jikanInFlight >= JIKAN_CONCURRENCY` sleep 50 ms
    and return to `whileCheck`; otherwise compute
    `elapsed = now - _jikanLastStart` and either sleep the remaining
    spacing (resuming at `afterSpacing`) or grant immediately; at
    `afterSpacing`, grant with no further checks
    (`_jikanInFlight++; _jikanLastStart = Date.now()`). -/
def limiterStep (s : LimiterSim) : LimiterSim :=
  match extractMin s.queue with
  | none => s
  | some ((tw, tid, ph), rest) =>
    let now := max s.now tw
    match ph with
    | AcqPhase.whileCheck =>
      if s.inFlight ≥ JIKAN_CONCURRENCY then
        { s with now := now, queue := rest ++ [(now + 50, tid, AcqPhase.whileCheck)] }
      else
        let elapsed := now - s.lastStart
        if elapsed < JIKAN_DELAY_MS then
          { s with now := now,
                   queue := rest ++ [(now + (JIKAN_DELAY_MS - elapsed), tid, AcqPhase.afterSpacing)] }
        else
          { s with now := now, inFlight := s.inFlight + 1, lastStart := now,
                   grants := s.grants ++ [(tid, now)], queue := rest }
    | AcqPhase.afterSpacing =>
      { s with now := now, inFlight := s.inFlight + 1, lastStart := now,
               grants := s.grants ++ [(tid, now)], queue := rest }

/-- Iterated event loop. -/
def limiterRun : Nat → LimiterSim → LimiterSim
  | 0, s => s
  | n + 1, s => limiterRun n (limiterStep s)

/-- K admission requests issued in the same event-loop tick (task ids
    `1..k` in registration order) at time `t0`, against the module's
    initial state `_jikanInFlight = 0`, `_jikanLastStart = 0`. -/
def limiterScenario (k : Nat) (t0 : Int) : LimiterSim :=
  { inFlight := 0, lastStart := 0, now := t0,
    queue := (List.range k).map (fun i => (t0, i + 1, AcqPhase.whileCheck)),
    grants := [] }

/- ── Jikan fuzzy ranking (`_bestJikanMatch`, part_003) ─────────────────── -/

/-- A Jikan API result item (the fields `_bestJikanMatch` reads). -/
structure JikanItem where
  title : Option Str
  titleEnglish : Option Str
  titleJapanese : Option Str
  titleSynonyms : List Str
  imageUrl : Str
deriving Repr, DecidableEq

/-- The candidate list
    `[item.title, item.title_english, item.title_japanese, ...(item.title_synonyms || [])].filter(Boolean)`
    (null and empty-string candidates removed, order preserved). -/
def candidateTitles (it : JikanItem) : List Str :=
  (([it.title, it.titleEnglish, it.titleJapanese].filterMap id) ++ it.titleSynonyms).filter
    (fun t => !t.isEmpty)

/-- The normalizer `(s) => s.toLowerCase().replace(/[^a-z0-9]/g, "")`. -/
def normTitle (s : Str) : Str :=
  (lowerStr s).filter (fun c => ('a' ≤ c && c ≤ 'z') || isDigitChar c)

/-- `while (cp < shorter.length && shorter[cp] === longer[cp]) cp++`. -/
def commonPrefixLen : Str → Str → Nat
  | a :: as, b :: bs => if a == b then commonPrefixLen as bs + 1 else 0
  | _, _ => 0

/-- A score value num/den, compared exactly by cross multiplication.  The
    source computes IEEE doubles; every score here is a ratio of small
    integers and every comparison in the algorithm and the claims is strict
    with ample margin, where rounding cannot flip the outcome.  A zero
    denominator (both normalized strings empty) models JS `0 / 0 = NaN`:
    with `num = 0` the cross-multiplied strict comparison is false in both
    directions, exactly as every `NaN` comparison is false. -/
structure Frac where
  num : Int
  den : Int
deriving Repr, DecidableEq

/-- Strict `>` of fractions with nonnegative denominators (exact model of
    the JS float comparison `score > bestScore`). -/
def fracGt (a b : Frac) : Bool := b.num * a.den < a.num * b.den

/-- The non-exact score of one candidate against the normalized query:
    `shorter.length / longer.length` when one contains the other, else
    `cp / longer.length * 0.5` (the factor `0.5` folded into the
    denominator). -/
def jikanScore (q n : Str) : Frac :=
  let shorter := if q.length ≤ n.length then q else n
  let longer := if q.length > n.length then q else n
  if containsSub shorter longer then { num := shorter.length, den := longer.length }
  else { num := commonPrefixLen shorter longer, den := 2 * longer.length }

/-- The initial `bestScore = -1`. -/
def initialScore : Frac := { num := -1, den := 1 }

/-- The inner candidate loop of `_bestJikanMatch` for one item: returns
    (exact match found, best score after this item, did this item improve
    the best score).  On an exact normalized match the source returns the
    item immediately. -/
def scanCandidates (q : Str) : Frac → List Str → Bool × Frac × Bool
  | best, [] => (false, best, false)
  | best, t :: rest =>
    let n := normTitle t
    if n == q then (true, best, false)
    else
      let score := jikanScore q n
      if fracGt score best then
        let r := scanCandidates q score rest
        (r.1, r.2.1, true)
      else scanCandidates q best rest

/-- The outer item loop of `_bestJikanMatch`. -/
def bestJikanGo (q : Str) : JikanItem → Frac → List JikanItem → JikanItem
  | best, _, [] => best
  | best, bestScore, it :: rest =>
    let r := scanCandidates q bestScore (candidateTitles it)
    if r.1 then it
    else bestJikanGo q (if r.2.2 then it else best) r.2.1 rest

/-- Embeds `VoiranimeSource._bestJikanMatch` (part_003 mobile variant):
    `bestItem` starts at `items[0]`, `bestScore` at `-1`; the caller
    guards the empty result list. -/
def bestJikanMatch (query : Str) (items : List JikanItem) : Option JikanItem :=
  match items with
  | [] => none
  | it0 :: _ => some (bestJikanGo (normTitle query) it0 initialScore items)

/- ── Properties of the stable sort ─────────────────────────────────────── -/

theorem mem_insertLe {le : α → α → Bool} {x a : α} {l : List α} :
    a ∈ insertLe le x l ↔ a = x ∨ a ∈ l := by
  induction l with
  | nil => simp [insertLe]
  | cons y ys ih =>
    simp only [insertLe]
    by_cases h : le x y = true
    · simp [h]
    · simp [h, ih]
      tauto

theorem insertLe_perm (le : α → α → Bool) (x : α) (l : List α) :
    List.Perm (insertLe le x l) (x :: l) := by
  induction l with
  | nil => simp [insertLe]
  | cons y ys ih =>
    simp only [insertLe]
    by_cases h : le x y = true
    · simp [h]
    · simp only [h]
      exact (List.Perm.cons y ih).trans (List.Perm.swap x y ys)

theorem stableSortLe_perm (le : α → α → Bool) (l : List α) :
    List.Perm (stableSortLe le l) l := by
  induction l with
  | nil => simp [stableSortLe]
  | cons x xs ih =>
    simp only [stableSortLe]
    exact (insertLe_perm le x (stableSortLe le xs)).trans (List.Perm.cons x ih)

theorem insertLe_pairwise {le : α → α → Bool}
    (htrans : ∀ a b c, le a b = true → le b c = true → le a c = true)
    (htot : ∀ a b, le a b = true ∨ le b a = true)
    (x : α) {l : List α} (hl : List.Pairwise (fun a b => le a b = true) l) :
    List.Pairwise (fun a b => le a b = true) (insertLe le x l) := by
  induction l with
  | nil => simp [insertLe]
  | cons y ys ih =>
    simp only [insertLe]
    rcases List.pairwise_cons.mp hl with ⟨hy, hys⟩
    by_cases h : le x y = true
    · rw [if_pos h]
      refine List.pairwise_cons.mpr ⟨?_, hl⟩
      intro a ha
      rcases List.mem_cons.mp ha with rfl | ha
      · exact h
      · exact htrans x y a h (hy a ha)
    · rw [if_neg h]
      refine List.pairwise_cons.mpr ⟨?_, ih hys⟩
      intro a ha
      rcases mem_insertLe.mp ha with heq | ha
      · rw [heq]
        rcases htot x y with h' | h'
        · exact absurd h' h
        · exact h'
      · exact hy a ha

theorem stableSortLe_pairwise {le : α → α → Bool}
    (htrans : ∀ a b c, le a b = true → le b c = true → le a c = true)
    (htot : ∀ a b, le a b = true ∨ le b a = true) (l : List α) :
    List.Pairwise (fun a b => le a b = true) (stableSortLe le l) := by
  induction l with
  | nil => simp [stableSortLe]
  | cons x xs ih =>
    exact insertLe_pairwise htrans htot x ih

theorem insertLe_filter {le : α → α → Bool} (p : α → Bool) (x : α) (l : List α)
    (hx : p x = true → ∀ y, le x y = false → p y = false) :
    (insertLe le x l).filter p = ((x :: l).filter p) := by
  induction l with
  | nil => simp [insertLe]
  | cons y ys ih =>
    simp only [insertLe]
    by_cases h : le x y = true
    · simp [h]
    · simp only [h, if_neg]
      by_cases hpx : p x = true
      · have hpy : p y = false := hx hpx y (by simp [h])
        simp only [List.filter_cons, hpy, hpx]
        simp only [List.filter_cons] at ih
        simp [ih, hpx, hpy]
      · have hpx' : p x = false := by
          cases hpxv : p x
          · rfl
          · exact absurd hpxv hpx
        simp only [List.filter_cons, hpx']
        simp only [List.filter_cons] at ih
        by_cases hpy : p y = true
        · simp [hpy, ih, hpx']
        · have : p y = false := by
            cases hpyv : p y
            · rfl
            · exact absurd hpyv hpy
          simp [this, ih, hpx']

theorem stableSortLe_filter {le : α → α → Bool} (p : α → Bool)
    (hcls : ∀ x, p x = true → ∀ y, le x y = false → p y = false) (l : List α) :
    (stableSortLe le l).filter p = l.filter p := by
  induction l with
  | nil => simp [stableSortLe]
  | cons x xs ih =>
    simp only [stableSortLe]
    rw [insertLe_filter p x (stableSortLe le xs) (hcls x)]
    simp only [List.filter_cons]
    by_cases hpx : p x = true
    · simp [hpx, ih]
    · have : p x = false := by
        cases hpxv : p x
        · rfl
        · exact absurd hpxv hpx
      simp [this, ih]

/- ── Properties of the de-dup loop ─────────────────────────────────────── -/

theorem dedupLoop_invariant {f : β → Option (Str × α)} (key : α → Str)
    (hkey : ∀ b k e, f b = some (k, e) → key e = k) :
    ∀ (ms : List β) (seen : List Str) (out : List α),
      ((out.map key).Nodup ∧ ∀ e ∈ out, key e ∈ seen) →
      (((dedupLoop f ms seen out).2.map key).Nodup ∧
        ∀ e ∈ (dedupLoop f ms seen out).2, key e ∈ (dedupLoop f ms seen out).1) := by
  intro ms
  induction ms with
  | nil => intro seen out h; exact h
  | cons m rest ih =>
    intro seen out h
    simp only [dedupLoop]
    cases hf : f m with
    | none => exact ih seen out h
    | some ke =>
      obtain ⟨k, e⟩ := ke
      dsimp only
      by_cases hseen : seen.contains k = true
      · rw [if_pos hseen]
        exact ih seen out h
      · rw [if_neg hseen]
        refine ih (k :: seen) (out ++ [e]) ⟨?_, ?_⟩
        · rw [List.map_append, List.nodup_append]
          refine ⟨h.1, by simp, ?_⟩
          intro a ha hb
          simp only [List.map_cons, List.map_nil, List.mem_singleton] at hb
          rw [hkey m k e hf] at hb
          rw [hb] at ha
          have : k ∈ seen := by
            rcases List.mem_map.mp ha with ⟨e', he', hke⟩
            rw [← hke]
            exact h.2 e' he'
          exact hseen (by
            simp only [List.contains]
            exact List.elem_eq_true_of_mem this)
        · intro e' he'
          rcases List.mem_append.mp he' with he' | he'
          · exact List.mem_cons_of_mem k (h.2 e' he')
          · rw [List.mem_singleton] at he'
            rw [he', hkey m k e hf]
            exact List.mem_cons_self k seen

set_option maxRecDepth 100000

/- ── Fixtures ──────────────────────────────────────────────────────────── -/

/-- Episode-list fixture with entries in arbitrary DOM order
    (numbers 1, 3, 2). -/
def fxEpisodesArb : Str := str
  "<ul><li class=\"wp-manga-chapter\"><a href=\"https://v6.voiranime.com/anime/foo-01-vostfr/\">Foo - 01 VOSTFR</a></li><li class=\"wp-manga-chapter\"><a href=\"https://v6.voiranime.com/anime/foo-03-vostfr/\">Foo - 03 VOSTFR</a></li><li class=\"wp-manga-chapter\"><a href=\"https://v6.voiranime.com/anime/foo-02-vostfr/\">Foo - 02 VOSTFR</a></li></ul>"

/-- Episode-list fixture in the site's newest-first order (3, 2, 1). -/
def fxEpisodesDesc : Str := str
  "<ul><li class=\"wp-manga-chapter\"><a href=\"https://v6.voiranime.com/anime/foo-03-vostfr/\">Foo - 03 VOSTFR</a></li><li class=\"wp-manga-chapter\"><a href=\"https://v6.voiranime.com/anime/foo-02-vostfr/\">Foo - 02 VOSTFR</a></li><li class=\"wp-manga-chapter\"><a href=\"https://v6.voiranime.com/anime/foo-01-vostfr/\">Foo - 01 VOSTFR</a></li></ul>"

/-- Episode page with an embedded source table holding a captcha-marked
    decoy entry and one genuine vidmoly embed. -/
def fxEpisodePage : Str := str
  "<html><script>var thisChapterSources = \x7b\"LECTEUR Captcha\":\"<iframe src=\\\"https:\\/\\/decoy.example\\/recaptcha\\/frame\\\"><\\/iframe>\",\"LECTEUR 1\":\"<iframe src=\\\"https:\\/\\/vidmoly.to\\/embed-abc.html\\\"><\\/iframe>\"\x7d;</script></html>"

/-- The vidmoly embed page behind the genuine entry. -/
def fxVidmolyPage : Str := str
  "<script>player.setup(\x7bsources: [\x7bfile:\"https://cdn.vidmoly.to/hls/abc/master.m3u8\"\x7d]\x7d);</script>"

/-- Embed-fetch oracle: only the genuine vidmoly embed URL resolves. -/
def fxEmbedFetch : Str → Option Str := fun u =>
  if u == str "https://vidmoly.to/embed-abc.html" then some fxVidmolyPage else none

/-- Search fixture with two links to the same derived id. -/
def fxSearchDup : Str := str
  "<div><a href=\"https://v6.voiranime.com/anime/naruto/\"><h3>Naruto TV</h3></a><a href=\"https://v6.voiranime.com/anime/naruto/\">Naruto encore</a></div>"

/-- Detail page fixture. -/
def fxDetailHtml : Str := str
  "<div class=\"post-title\"><h1>My Show <span>VOSTFR</span></h1></div><div class=\"post-content_item\"><h5>Type</h5> <span class=\"summary-content\">OVA</span></div><div class=\"post-content_item\"><h5>Year</h5> <span class=\"summary-content\">Jan 2019</span></div>"

/-- Jikan candidate with title "Shingeki no Kyojin". -/
def itemSNK : JikanItem :=
  { title := some (str "Shingeki no Kyojin"), titleEnglish := none,
    titleJapanese := none, titleSynonyms := [], imageUrl := str "https://img/snk.jpg" }

/-- Jikan candidate with title "Attack on Titan Season 2". -/
def itemAOT2 : JikanItem :=
  { title := some (str "Attack on Titan Season 2"), titleEnglish := none,
    titleJapanese := none, titleSynonyms := [], imageUrl := str "https://img/aot2.jpg" }

/-- Jikan candidate with title "Attack on Titan". -/
def itemAOT : JikanItem :=
  { title := some (str "Attack on Titan"), titleEnglish := none,
    titleJapanese := none, titleSynonyms := [], imageUrl := str "https://img/aot.jpg" }

/-- The empty cache tier. -/
def emptyCache : CacheMap := fun _ => none

/- ── Claim theorems ────────────────────────────────────────────────────── -/

/-- C7: episode-number derivation follows the fallback order — (a) the
    dash-number-language-marker pattern in the visible text, then (b) the
    number before the marker in the URL, then (c) the last integer in the
    text, then (d) 0; in particular "Episode 12 VOSTFR" yields 12, a URL
    ending in `-07-vf` with no usable text yields 7, and no signal yields
    0. -/
theorem claim7_extractEpisodeNumber_fallback_chain :
    (∀ text href n, epPatternA text = some n → extractEpisodeNumber text href = n) ∧
    (∀ text href n, epPatternA text = none → epPatternB href = some n →
      extractEpisodeNumber text href = n) ∧
    (∀ text href ds, epPatternA text = none → epPatternB href = none →
      (digitRuns text).getLast? = some ds →
      extractEpisodeNumber text href = digitsToNat ds) ∧
    (∀ text href, epPatternA text = none → epPatternB href = none →
      (digitRuns text).getLast? = none → extractEpisodeNumber text href = 0) ∧
    extractEpisodeNumber (str "Episode 12 VOSTFR") (str "") = 12 ∧
    extractEpisodeNumber (str "") (str "https://v6.voiranime.com/anime/foo-07-vf/") = 7 ∧
    extractEpisodeNumber (str "") (str "") = 0 := by
  refine ⟨?_, ?_, ?_, ?_, by decide, by decide, by decide⟩
  · intro text href n h
    simp [extractEpisodeNumber, h]
  · intro text href n ha hb
    simp [extractEpisodeNumber, ha, hb]
  · intro text href ds ha hb hc
    simp [extractEpisodeNumber, ha, hb, hc]
  · intro text href ha hb hc
    simp [extractEpisodeNumber, ha, hb, hc]

/-- C7 witness: the theorem applied at a concrete pattern-(a) input. -/
theorem claim7_witness :
    extractEpisodeNumber (str "One Piece - 1071 VOSTFR") (str "") = 1071 :=
  claim7_extractEpisodeNumber_fallback_chain.1
    (str "One Piece - 1071 VOSTFR") (str "") 1071 (by decide)

/-- C9: transport failure (modelled as a `none` fetch) makes `getEpisodes`
    and `getVideoUrl` fail with an error, while `search` and
    `getLatestEpisodes` return a plain list — empty when no channel yields
    results, the fallback parser's list otherwise. -/
theorem claim9_transport_failure_policy :
    search none none none = [] ∧
    getLatestEpisodes none = [] ∧
    (∀ aid, ∃ e, getEpisodes aid none = Except.error e) ∧
    (∀ eid embedFetch ajaxFetch, ∃ e,
      getVideoUrl eid none embedFetch ajaxFetch = Except.error e) ∧
    (∀ fb, search none none (some fb) = searchWpFallbackFromHtml fb) :=
  ⟨rfl, rfl, fun _ => ⟨_, rfl⟩, fun _ _ _ => ⟨_, rfl⟩, fun _ => rfl⟩

/-- C10: `getAnimeInfo` never throws — a failed page fetch yields `null`,
    an exception during the cover lookup is caught and yields `null`, and a
    `DetailRecord` is produced only from a successful fetch with a
    non-throwing cover lookup. -/
theorem claim10_getAnimeInfo_never_throws :
    (∀ aid coverRes, getAnimeInfo aid none coverRes = none) ∧
    (∀ aid page e, getAnimeInfo aid page (Except.error e) = none) ∧
    (∀ aid page coverRes d, getAnimeInfo aid page coverRes = some d →
      ∃ html c, page = some html ∧ coverRes = Except.ok c ∧
        d = parseAnimeDetail aid html c) := by
  refine ⟨fun _ _ => rfl, ?_, ?_⟩
  · intro aid page e
    cases page <;> rfl
  · intro aid page coverRes d h
    cases page with
    | none => exact absurd h (by simp [getAnimeInfo])
    | some html =>
      cases coverRes with
      | error e => exact absurd h (by simp [getAnimeInfo])
      | ok c =>
        refine ⟨html, c, rfl, rfl, ?_⟩
        have : some (parseAnimeDetail aid html c) = some d := h
        exact (Option.some.inj this).symm

/-- C10 witness: the theorem applied at a concrete successful fetch. -/
theorem claim10_witness :
    ∃ html c, (some fxDetailHtml : Option Str) = some html ∧
      (Except.ok (str "https://c/x.jpg") : Except Str Str) = Except.ok c ∧
      parseAnimeDetail (str "my-show") fxDetailHtml (str "https://c/x.jpg") =
        parseAnimeDetail (str "my-show") html c :=
  claim10_getAnimeInfo_never_throws.2.2 (str "my-show") (some fxDetailHtml)
    (Except.ok (str "https://c/x.jpg"))
    (parseAnimeDetail (str "my-show") fxDetailHtml (str "https://c/x.jpg")) rfl

/-- C5: cache TTL asymmetry — a negative (empty-value) entry written at
    time T is no longer a memory-tier hit 10 seconds later (and, not being
    persisted, cannot come back from a durable tier with no entry for the
    key), while a positive entry written at T is still a hit after the same
    interval. -/
theorem claim5_cache_ttl_asymmetry (mem db : CacheMap) (T : Int) (k v : Str) :
    (db k = none →
      (cacheGet (cacheSet mem db T k []).1 (cacheSet mem db T k []).2 (T + 10000) k).1
        = none) ∧
    (v ≠ [] →
      (cacheGet (cacheSet mem db T k v).1 (cacheSet mem db T k v).2 (T + 10000) k).1
        = some { key := k, cover := v, recordedAt := T }) := by
  constructor
  · intro hdb
    simp only [cacheSet, cacheGet, cacheGetDb, mapSet, entryTtl, COVER_ERROR_TTL,
      COVER_TTL, List.isEmpty_nil, if_pos, if_true]
    simp [hdb]
  · intro hv
    have hne : v.isEmpty = false := by
      cases v with
      | nil => exact absurd rfl hv
      | cons c cs => rfl
    have harith : T + 10000 - T = (10000 : Int) := by ring
    simp only [cacheSet, cacheGet, cacheGetDb, mapSet, entryTtl, hne, COVER_ERROR_TTL,
      COVER_TTL]
    simp [harith]
    rw [if_neg hv]
    norm_num

/-- C5 witness: the theorem applied at empty tiers, T = 5000, a concrete
    key and cover URL. -/
theorem claim5_witness :
    ((cacheGet (cacheSet emptyCache emptyCache 5000 (str "k") []).1
        (cacheSet emptyCache emptyCache 5000 (str "k") []).2 (5000 + 10000) (str "k")).1
      = none) ∧
    ((cacheGet (cacheSet emptyCache emptyCache 5000 (str "k") (str "u")).1
        (cacheSet emptyCache emptyCache 5000 (str "k") (str "u")).2 (5000 + 10000)
        (str "k")).1
      = some { key := str "k", cover := str "u", recordedAt := 5000 }) :=
  ⟨(claim5_cache_ttl_asymmetry emptyCache emptyCache 5000 (str "k") (str "u")).1 rfl,
   (claim5_cache_ttl_asymmetry emptyCache emptyCache 5000 (str "k") (str "u")).2
     (by decide)⟩

/-- C4: the rate limiter does NOT enforce its admission bounds.  Five
    requests issued in the same event-loop tick against the initial state
    are all granted: the first immediately, the other four together
    200 ms later — `_jikanInFlight` reaches 5 > JIKAN_CONCURRENCY = 3, and
    the four later grant timestamps coincide (spacing 0 < 200 ms), because
    the code after the spacing sleep increments without re-checking either
    condition.  This contradicts the code's own comment
    ("max 3 concurrent, 200ms between starts"). -/
theorem claim4_limiter_overadmits :
    (limiterRun 20 (limiterScenario 5 1000000)).inFlight = 5 ∧
    (limiterRun 20 (limiterScenario 5 1000000)).grants =
      [(1, 1000000), (2, 1000200), (3, 1000200), (4, 1000200), (5, 1000200)] ∧
    ¬ (limiterRun 20 (limiterScenario 5 1000000)).inFlight ≤ JIKAN_CONCURRENCY := by
  refine ⟨by decide, by decide, by decide⟩

/-- C2 counterexample: an episode-list fixture whose entries appear in DOM
    order 1, 3, 2 is returned in order 2, 3, 1 — not episode-number
    ascending. -/
theorem claim2_counterexample :
    (getEpisodesFromHtml fxEpisodesArb).map EpisodeRef.number = [2, 3, 1] ∧
    ¬ List.Pairwise (fun a b : EpisodeRef => a.number ≤ b.number)
        (getEpisodesFromHtml fxEpisodesArb) := by
  refine ⟨by decide, by decide⟩

/-- C2 (amended): `getEpisodes` returns the parsed chapter entries in
    reverse document order; consequently, when the page lists episodes in
    non-increasing episode-number order (the site's newest-first layout),
    the returned list is episode-number ascending.  It is not sorted for
    arbitrary DOM order. -/
theorem claim2_amended_reverse_order (aid html : Str)
    (hdesc : List.Pairwise (fun a b : EpisodeRef => b.number ≤ a.number)
      ((liCaptures html).filterMap parseEpisodeItem)) :
    ∃ eps, getEpisodes aid (some html) = Except.ok eps ∧
      eps = ((liCaptures html).filterMap parseEpisodeItem).reverse ∧
      List.Pairwise (fun a b : EpisodeRef => a.number ≤ b.number) eps := by
  refine ⟨getEpisodesFromHtml html, rfl, rfl, ?_⟩
  unfold getEpisodesFromHtml
  exact List.pairwise_reverse.mpr hdesc

/-- C2 witness: the amended theorem applied at a newest-first fixture. -/
theorem claim2_witness :
    ∃ eps, getEpisodes (str "foo") (some fxEpisodesDesc) = Except.ok eps ∧
      eps = ((liCaptures fxEpisodesDesc).filterMap parseEpisodeItem).reverse ∧
      List.Pairwise (fun a b : EpisodeRef => a.number ≤ b.number) eps :=
  claim2_amended_reverse_order (str "foo") fxEpisodesDesc (by decide)

/- ── De-dup key lemmas and claim C8 ────────────────────────────────────── -/

theorem searchEntity_key : ∀ m k e, searchEntity m = some (k, e) → e.id = k := by
  intro m k e h
  simp only [searchEntity] at h
  split at h
  · exact absurd h (by simp)
  · simp only [Option.some.injEq, Prod.mk.injEq] at h
    obtain ⟨h1, h2⟩ := h
    subst h1
    subst h2
    rfl

theorem fallbackEntity_key : ∀ m k e, fallbackEntity m = some (k, e) → e.id = k := by
  intro m k e h
  simp only [fallbackEntity] at h
  split at h
  · exact absurd h (by simp)
  · simp only [Option.some.injEq, Prod.mk.injEq] at h
    obtain ⟨h1, h2⟩ := h
    subst h1
    subst h2
    rfl

theorem latestEntity_key : ∀ m k e, latestEntity m = some (k, e) → e.id = k := by
  intro m k e h
  simp only [latestEntity] at h
  split at h
  · exact absurd h (by simp)
  · split at h
    · exact absurd h (by simp)
    · simp only [Option.some.injEq, Prod.mk.injEq] at h
      obtain ⟨h1, h2⟩ := h
      subst h1
      subst h2
      rfl

/-- The de-dup invariant specialized to the search parser. -/
theorem parseSearchResults_invariant (html : Str) (seen : List Str)
    (out : List CatalogEntry)
    (h : ((out.map CatalogEntry.id).Nodup ∧ ∀ e ∈ out, e.id ∈ seen)) :
    (((parseSearchResults html seen out).2.map CatalogEntry.id).Nodup ∧
      ∀ e ∈ (parseSearchResults html seen out).2,
        e.id ∈ (parseSearchResults html seen out).1) :=
  dedupLoop_invariant CatalogEntry.id searchEntity_key _ seen out h

theorem searchChannels_invariant (ch3 ch2 : Option Str) :
    (((searchChannels ch3 ch2).2.map CatalogEntry.id).Nodup ∧
      ∀ e ∈ (searchChannels ch3 ch2).2, e.id ∈ (searchChannels ch3 ch2).1) := by
  have base : ((([] : List CatalogEntry).map CatalogEntry.id).Nodup ∧
      ∀ e ∈ ([] : List CatalogEntry), e.id ∈ ([] : List Str)) := ⟨List.nodup_nil, by simp⟩
  unfold searchChannels
  dsimp only
  by_cases h3 : (channelHtml ch3).isEmpty = true <;>
    by_cases h2 : (channelHtml ch2).isEmpty = true <;>
      simp only [h3, h2, if_true, if_false]
  · exact base
  · exact parseSearchResults_invariant _ _ _ base
  · exact parseSearchResults_invariant _ _ _ base
  · exact parseSearchResults_invariant _ _ _ (parseSearchResults_invariant _ _ _ base)

/-- C8: within one parser response an entity whose derived id has already
    been seen is silently dropped, first occurrence winning — every result
    list of the search operation (either channel path or WP fallback) and
    of the latest-episodes parser has pairwise-distinct ids, and a fixture
    with two links to the same derived id yields exactly the first
    entity. -/
theorem claim8_dedup_first_wins :
    (∀ ch3 ch2 fb, ((search ch3 ch2 fb).map CatalogEntry.id).Nodup) ∧
    (∀ page, ((getLatestEpisodes page).map LatestEntry.id).Nodup) ∧
    (parseSearchResults fxSearchDup [] []).2 =
      [{ id := str "naruto", title := str "Naruto TV", cover := [],
         type := str "TV", year := none }] := by
  refine ⟨?_, ?_, by decide⟩
  · intro ch3 ch2 fb
    unfold search
    by_cases hemp : (searchChannels ch3 ch2).2.isEmpty = true <;>
      simp only [hemp, if_true, if_false]
    · cases fb with
      | none => simp [searchWpFallback]
      | some html =>
        exact (dedupLoop_invariant CatalogEntry.id fallbackEntity_key _ [] []
          ⟨List.nodup_nil, by simp⟩).1
    · exact (searchChannels_invariant ch3 ch2).1
  · intro page
    cases page with
    | none => simp [getLatestEpisodes]
    | some html =>
      exact (dedupLoop_invariant LatestEntry.id latestEntity_key _ [] []
        ⟨List.nodup_nil, by simp⟩).1

/- ── Exact-match lemmas and claim C6 ───────────────────────────────────── -/

theorem scanCandidates_exact_iff (q : Str) (cands : List Str) :
    ∀ best, (scanCandidates q best cands).1 = true ↔ ∃ t ∈ cands, normTitle t = q := by
  induction cands with
  | nil => intro best; simp [scanCandidates]
  | cons t rest ih =>
    intro best
    simp only [scanCandidates]
    by_cases h : normTitle t = q
    · have hb : (normTitle t == q) = true := by simpa using h
      simp only [hb]
      simp [h]
    · have hb : (normTitle t == q) = false := by simpa using h
      simp only [hb]
      rw [if_neg (by simp)]
      by_cases hs : fracGt (jikanScore q (normTitle t)) best = true
      · rw [if_pos hs]
        show (scanCandidates q (jikanScore q (normTitle t)) rest).1 = true ↔ _
        rw [ih]
        simp [h]
      · rw [if_neg hs]
        rw [ih]
        simp [h]

theorem bestJikanGo_exact (q : Str) :
    ∀ (items : List JikanItem) (best : JikanItem) (bestScore : Frac),
      (∃ it ∈ items, ∃ t ∈ candidateTitles it, normTitle t = q) →
      ∃ t ∈ candidateTitles (bestJikanGo q best bestScore items), normTitle t = q := by
  intro items
  induction items with
  | nil =>
    intro best bestScore h
    simp at h
  | cons it rest ih =>
    intro best bestScore h
    simp only [bestJikanGo]
    by_cases hx : (scanCandidates q bestScore (candidateTitles it)).1 = true
    · rw [if_pos hx]
      exact (scanCandidates_exact_iff q (candidateTitles it) bestScore).mp hx
    · rw [if_neg hx]
      have hnotit : ¬ ∃ t ∈ candidateTitles it, normTitle t = q := by
        intro hex
        exact hx ((scanCandidates_exact_iff q (candidateTitles it) bestScore).mpr hex)
      have hrest : ∃ it' ∈ rest, ∃ t ∈ candidateTitles it', normTitle t = q := by
        rcases h with ⟨it', hit', ht'⟩
        rcases List.mem_cons.mp hit' with rfl | hmem
        · exact absurd ht' hnotit
        · exact ⟨it', hmem, ht'⟩
      exact ih _ _ hrest

/- ── Claim C3: source-table filtering and priority sorting ─────────────── -/

theorem sourceLe_trans : ∀ a b c, sourceLe a b = true → sourceLe b c = true →
    sourceLe a c = true := by
  intro a b c hab hbc
  simp only [sourceLe, decide_eq_true_eq] at *
  omega

theorem sourceLe_total : ∀ a b, sourceLe a b = true ∨ sourceLe b a = true := by
  intro a b
  simp only [sourceLe, decide_eq_true_eq]
  omega

/-- C3: the embedded source table — captcha-marked fragments are discarded
    before iframe extraction (every output entry comes from a non-captcha
    entry of the table), the surviving candidates are sorted by the fixed
    provider-priority index with ties (including all unknown providers,
    index 5) kept in encountered order, and the fixture page with a
    captcha-marked decoy and one genuine vidmoly embed resolves to the
    genuine entry's extracted manifest URL. -/
theorem claim3_chapter_sources_filter_sort_resolve :
    (∀ html, List.Pairwise (fun a b => sourceLe a b = true) (parseChapterSources html)) ∧
    (∀ html n, (parseChapterSources html).filter (fun s => hostIdx s.url == n) =
      (chapterCandidates html).filter (fun s => hostIdx s.url == n)) ∧
    (∀ html s, s ∈ parseChapterSources html →
      ∃ nv ∈ chapterEntries html, collectSource nv = some s ∧
        captchaTest (unescapeValue nv.2) = false) ∧
    getVideoUrl (str "foo-01-vostfr") (some fxEpisodePage) fxEmbedFetch (fun _ _ => none) =
      Except.ok { url := str "https://cdn.vidmoly.to/hls/abc/master.m3u8", type := none,
                  referer := str "https://vidmoly.to/embed-abc.html",
                  headersReferer := str "https://vidmoly.to/embed-abc.html",
                  subtitles := [],
                  sources := some [{ name := str "LECTEUR 1",
                                     url := str "https://vidmoly.to/embed-abc.html" }] } := by
  refine ⟨?_, ?_, ?_, by decide⟩
  · intro html
    exact stableSortLe_pairwise sourceLe_trans sourceLe_total _
  · intro html n
    apply stableSortLe_filter
    intro x hx y hxy
    simp only [beq_iff_eq] at hx
    simp only [sourceLe, decide_eq_false_iff_not] at hxy
    simp only [beq_eq_false_iff_ne, ne_eq]
    omega
  · intro html s hs
    have hmem : s ∈ chapterCandidates html :=
      ((stableSortLe_perm sourceLe (chapterCandidates html)).mem_iff).mp hs
    rcases List.mem_filterMap.mp hmem with ⟨nv, hnv, hcol⟩
    refine ⟨nv, hnv, hcol, ?_⟩
    by_cases hcap : captchaTest (unescapeValue nv.2) = true
    · exfalso
      simp only [collectSource, hcap, if_true] at hcol
      exact Option.noConfusion hcol
    · exact Bool.eq_false_iff.mpr hcap

/-- C3 witness: the captcha-discard conjunct applied at the fixture page
    and its single surviving entry. -/
theorem claim3_witness :
    ∃ nv ∈ chapterEntries fxEpisodePage,
      collectSource nv = some { name := str "LECTEUR 1",
                                url := str "https://vidmoly.to/embed-abc.html" } ∧
      captchaTest (unescapeValue nv.2) = false :=
  claim3_chapter_sources_filter_sort_resolve.2.2.1 fxEpisodePage
    { name := str "LECTEUR 1", url := str "https://vidmoly.to/embed-abc.html" }
    (by decide)

/- ── Claim C1: resolution exhaustion ───────────────────────────────────── -/

/-- C1: on a successfully fetched episode page, `getVideoUrl` surfaces a
    hard error exactly when all four resolution strategies fail — the
    embedded source table yields no candidate, the in-page iframe scan
    finds nothing, the asynchronous reading-content fetch yields nothing,
    and neither a native video tag nor an inline script URL is found;
    whenever any strategy succeeds a `ResolvedVideo` is returned. -/
theorem claim1_getVideoUrl_resolution_exhaustion (eid html : Str)
    (embedFetch : Str → Option Str) (ajaxFetch : Str → Str → Option Str) :
    ((∃ e, getVideoUrl eid (some html) embedFetch ajaxFetch = Except.error e) ↔
      (parseChapterSources html = [] ∧ findIframeVideo html = none ∧
       tryAjaxReadingContent html ajaxFetch = none ∧ videoTagUrl html = none ∧
       findVideoInScripts html = none)) ∧
    ((∃ r, getVideoUrl eid (some html) embedFetch ajaxFetch = Except.ok r) ↔
      ¬ (parseChapterSources html = [] ∧ findIframeVideo html = none ∧
         tryAjaxReadingContent html ajaxFetch = none ∧ videoTagUrl html = none ∧
         findVideoInScripts html = none)) := by
  cases h1 : parseChapterSources html with
  | nil =>
    cases h2 : findIframeVideo html with
    | none =>
      cases h3 : tryAjaxReadingContent html ajaxFetch with
      | none =>
        cases h4 : videoTagUrl html with
        | none =>
          cases h5 : findVideoInScripts html with
          | none => simp [getVideoUrl, h1, h2, h3, h4, h5]
          | some u => simp [getVideoUrl, h1, h2, h3, h4, h5]
        | some u => simp [getVideoUrl, h1, h2, h3, h4]
      | some u => simp [getVideoUrl, h1, h2, h3]
    | some u => simp [getVideoUrl, h1, h2]
  | cons s0 srest =>
    simp only [getVideoUrl]
    rw [h1]
    cases h6 : firstResolved (resolveEmbedUrl embedFetch) (s0 :: srest) with
    | none => simp [h6]
    | some p =>
      obtain ⟨d, su⟩ := p
      simp [h6]

/- ── Scoring characterization for claim C6 ─────────────────────────────── -/

/-- Well-formedness of the scores `jikanScore` produces: nonnegative
    numerator and denominator, and a zero denominator (the `NaN` case,
    both normalized strings empty) forces a zero numerator. -/
def wfFrac (a : Frac) : Prop := 0 ≤ a.num ∧ 0 ≤ a.den ∧ (a.den = 0 → a.num = 0)

/-- The flattened global candidate traversal of `_bestJikanMatch`: each
    item paired with the score of each of its candidate titles against the
    normalized query, items in order, candidates in order within an item. -/
def itemScores (q : Str) (items : List JikanItem) : List (JikanItem × Frac) :=
  items.flatMap (fun it => (candidateTitles it).map (fun t => (it, jikanScore q (normTitle t))))

/-- The selection fold over the flattened traversal: keep the running best
    item and score, updating on strict improvement only.  This is the
    flattening of the source's nested item/candidate loop in the non-exact
    case; `bestJikanGo_eq_selectBest` proves the agreement. -/
def selectBest : JikanItem → Frac → List (JikanItem × Frac) → JikanItem
  | best, _, [] => best
  | best, bestScore, p :: rest =>
    if fracGt p.2 bestScore then selectBest p.1 p.2 rest
    else selectBest best bestScore rest

/-- Tie fixture: "Attack on Titan Part 2", scoring 13/18 against the query
    (substring containment). -/
def itemTieA : JikanItem :=
  { title := some (str "Attack on Titan Part 2"), titleEnglish := none,
    titleJapanese := none, titleSynonyms := [], imageUrl := str "https://img/tieA.jpg" }

/-- Tie fixture: "Attack on Titan: Final", also scoring 13/18. -/
def itemTieB : JikanItem :=
  { title := some (str "Attack on Titan: Final"), titleEnglish := none,
    titleJapanese := none, titleSynonyms := [], imageUrl := str "https://img/tieB.jpg" }

theorem fracGt_nan_le (a b : Frac) (hnum : a.num = 0) (hden : a.den = 0) :
    fracGt a b = false := by
  simp [fracGt, hnum, hden]

theorem fracGt_irrefl (a : Frac) : fracGt a a = false := by
  simp [fracGt]

theorem fracGt_asymm {a b : Frac} (h : fracGt a b = true) : fracGt b a = false := by
  simp only [fracGt, decide_eq_true_eq] at h
  simp only [fracGt, decide_eq_false_iff_not]
  exact not_lt.mpr (le_of_lt h)

theorem fracGt_pos_den {a : Frac} (b : Frac) (hwf : wfFrac a) (h : fracGt a b = true) :
    0 < a.den := by
  rcases hwf with ⟨-, hden, hforce⟩
  rcases lt_or_eq_of_le hden with hpos | hzero
  · exact hpos
  · exfalso
    rw [fracGt_nan_le a b (hforce hzero.symm) hzero.symm] at h
    exact Bool.false_ne_true h

theorem fracGt_trans {a b c : Frac} (hwfa : wfFrac a) (hwfb : wfFrac b)
    (hcden : 0 < c.den) (h1 : fracGt a b = true) (h2 : fracGt b c = true) :
    fracGt a c = true := by
  have had : 0 < a.den := fracGt_pos_den b hwfa h1
  have hbd : 0 < b.den := fracGt_pos_den c hwfb h2
  simp only [fracGt, decide_eq_true_eq] at h1 h2 ⊢
  have k1 := mul_lt_mul_of_pos_right h2 had
  have k2 := mul_lt_mul_of_pos_right h1 hcden
  have k3 : c.num * a.den * b.den < a.num * c.den * b.den := by
    ring_nf at k1 k2 ⊢
    linarith
  exact lt_of_mul_lt_mul_right k3 (le_of_lt hbd)

theorem fracGt_of_not_gt {w p0 p : Frac} (hwfw : wfFrac w) (hwfp0 : wfFrac p0)
    (hpden : 0 < p.den) (h1 : fracGt w p0 = true) (h2 : fracGt p p0 = false) :
    fracGt w p = true := by
  have hwd : 0 < w.den := fracGt_pos_den p0 hwfw h1
  have hp0d : 0 < p0.den := by
    rcases hwfp0 with ⟨-, hden, hforce⟩
    rcases lt_or_eq_of_le hden with hpos | hzero
    · exact hpos
    · exfalso
      simp only [fracGt, decide_eq_true_eq, ← hzero, mul_zero] at h1
      have hnum := hforce hzero.symm
      rw [hnum] at h1
      simp at h1
  simp only [fracGt, decide_eq_true_eq] at h1 ⊢
  simp only [fracGt, decide_eq_false_iff_not, not_lt] at h2
  have k1 := mul_le_mul_of_nonneg_right h2 (le_of_lt hwd)
  have k2 := mul_lt_mul_of_pos_right h1 hpden
  have k3 : p.num * w.den * p0.den < w.num * p.den * p0.den := by
    ring_nf at k1 k2 ⊢
    linarith
  exact lt_of_mul_lt_mul_right k3 (le_of_lt hp0d)

theorem fracGt_init_false_nan {a : Frac} (hwf : wfFrac a)
    (h : fracGt a initialScore = false) : a.num = 0 ∧ a.den = 0 := by
  rcases hwf with ⟨hnum, hden, -⟩
  simp only [fracGt, initialScore, decide_eq_false_iff_not, not_lt] at h
  omega

theorem commonPrefixLen_le (a : Str) : ∀ b, commonPrefixLen a b ≤ a.length := by
  induction a with
  | nil => intro b; cases b <;> simp [commonPrefixLen]
  | cons c cs ih =>
    intro b
    cases b with
    | nil => simp [commonPrefixLen]
    | cons d ds =>
      simp only [commonPrefixLen]
      by_cases h : (c == d) = true
      · rw [if_pos h]
        have := ih ds
        simp
        omega
      · rw [if_neg h]
        simp

theorem jikanScore_wf (q n : Str) : wfFrac (jikanScore q n) := by
  have main : ∀ sh lo : Str, sh.length ≤ lo.length →
      wfFrac (if containsSub sh lo then
                { num := (sh.length : Int), den := (lo.length : Int) }
              else
                { num := (commonPrefixLen sh lo : Int), den := 2 * (lo.length : Int) }) := by
    intro sh lo hlen
    unfold wfFrac
    by_cases hc : containsSub sh lo = true
    · rw [if_pos hc]
      refine ⟨Int.natCast_nonneg _, Int.natCast_nonneg _, ?_⟩
      intro h
      dsimp only at h ⊢
      have hlo : lo.length = 0 := by exact_mod_cast h
      have hsh : sh.length = 0 := by omega
      exact_mod_cast hsh
    · rw [if_neg hc]
      refine ⟨Int.natCast_nonneg _, by positivity, ?_⟩
      intro h
      dsimp only at h ⊢
      have hlo : lo.length = 0 := by
        have h2 : ((lo.length : Int)) = 0 := by linarith
        exact_mod_cast h2
      have hcp := commonPrefixLen_le sh lo
      have : commonPrefixLen sh lo = 0 := by omega
      exact_mod_cast this
  dsimp only [jikanScore]
  by_cases hle : q.length ≤ n.length
  · have hgt : ¬ q.length > n.length := not_lt.mpr hle
    rw [if_pos hle, if_neg hgt]
    exact main q n hle
  · have hgt : q.length > n.length := Nat.lt_of_not_le hle
    rw [if_neg hle, if_pos hgt]
    exact main n q (le_of_lt hgt)

theorem scanCandidates_fst_false (q : Str) (cands : List Str) (b : Frac)
    (h : ∀ t ∈ cands, normTitle t ≠ q) : (scanCandidates q b cands).1 = false := by
  cases hv : (scanCandidates q b cands).1 with
  | false => rfl
  | true =>
    rcases (scanCandidates_exact_iff q cands b).mp hv with ⟨t, ht, hq⟩
    exact absurd hq (h t ht)

theorem selectBest_const (best : JikanItem) (b : Frac) :
    ∀ scored : List (JikanItem × Frac),
      (∀ p ∈ scored, fracGt p.2 b = false) → selectBest best b scored = best := by
  intro scored
  induction scored with
  | nil => intro _; rfl
  | cons p rest ih =>
    intro h
    simp only [selectBest]
    rw [if_neg (by rw [h p (List.mem_cons_self p rest)]; exact Bool.false_ne_true)]
    exact ih (fun p' hp' => h p' (List.mem_cons_of_mem p hp'))

theorem itemScores_cons (q : Str) (it : JikanItem) (rest : List JikanItem) :
    itemScores q (it :: rest) =
      ((candidateTitles it).map (fun t => (it, jikanScore q (normTitle t)))) ++
        itemScores q rest := by
  simp [itemScores]

theorem scanCandidates_cons_ne (q t : Str) (ts : List Str) (b : Frac)
    (hb : (normTitle t == q) = false) :
    scanCandidates q b (t :: ts) =
      if fracGt (jikanScore q (normTitle t)) b then
        ((scanCandidates q (jikanScore q (normTitle t)) ts).1,
         (scanCandidates q (jikanScore q (normTitle t)) ts).2.1, true)
      else scanCandidates q b ts := by
  simp only [scanCandidates, hb, Bool.false_eq_true, if_false]

theorem selectBest_flatten (q : Str) :
    ∀ (cands : List Str) (b : Frac) (it best : JikanItem)
      (rest : List (JikanItem × Frac)),
      (∀ t ∈ cands, normTitle t ≠ q) →
      selectBest best b
          (((cands.map (fun t => (it, jikanScore q (normTitle t))))) ++ rest) =
        selectBest (if (scanCandidates q b cands).2.2 then it else best)
          ((scanCandidates q b cands).2.1) rest := by
  intro cands
  induction cands with
  | nil => intro b it best rest _; rfl
  | cons t ts ih =>
    intro b it best rest h
    have hne : normTitle t ≠ q := h t (List.mem_cons_self t ts)
    have hb : (normTitle t == q) = false := by simpa using hne
    have hrest : ∀ t' ∈ ts, normTitle t' ≠ q :=
      fun t' ht' => h t' (List.mem_cons_of_mem t ht')
    rw [List.map_cons, List.cons_append, scanCandidates_cons_ne q t ts b hb]
    simp only [selectBest]
    by_cases hs : fracGt (jikanScore q (normTitle t)) b = true
    · rw [if_pos hs, if_pos hs]
      dsimp only
      rw [ih (jikanScore q (normTitle t)) it it rest hrest]
      rw [ite_self]
      simp
    · rw [if_neg hs, if_neg hs]
      exact ih b it best rest hrest

theorem bestJikanGo_eq_selectBest (q : Str) :
    ∀ (items : List JikanItem) (best : JikanItem) (b : Frac),
      (∀ it ∈ items, ∀ t ∈ candidateTitles it, normTitle t ≠ q) →
      bestJikanGo q best b items = selectBest best b (itemScores q items) := by
  intro items
  induction items with
  | nil => intro best b _; rfl
  | cons it rest ih =>
    intro best b h
    have hthis : ∀ t ∈ candidateTitles it, normTitle t ≠ q :=
      h it (List.mem_cons_self it rest)
    have hrest : ∀ it' ∈ rest, ∀ t ∈ candidateTitles it', normTitle t ≠ q :=
      fun it' hit' => h it' (List.mem_cons_of_mem it hit')
    rw [itemScores_cons, selectBest_flatten q (candidateTitles it) b it best _ hthis]
    simp only [bestJikanGo]
    rw [if_neg (by rw [scanCandidates_fst_false q _ b hthis]; exact Bool.false_ne_true)]
    exact ih _ _ hrest

theorem selectBest_spec :
    ∀ (scored : List (JikanItem × Frac)) (best : JikanItem) (b : Frac),
      (∀ p ∈ scored, wfFrac p.2) → 0 < b.den →
      (∃ p ∈ scored, fracGt p.2 b = true) →
      ∃ pre winner post,
        scored = pre ++ winner :: post ∧
        selectBest best b scored = winner.1 ∧
        fracGt winner.2 b = true ∧
        (∀ p ∈ pre, fracGt winner.2 p.2 = true ∨ fracGt p.2 b = false) ∧
        (∀ p ∈ post, fracGt p.2 winner.2 = false) := by
  intro scored
  induction scored with
  | nil => intro best b _ _ hex; simp at hex
  | cons p0 rest ih =>
    intro best b hwf hbden hex
    have hwfp0 : wfFrac p0.2 := hwf p0 (List.mem_cons_self p0 rest)
    have hwfrest : ∀ p ∈ rest, wfFrac p.2 :=
      fun p hp => hwf p (List.mem_cons_of_mem p0 hp)
    by_cases hA : fracGt p0.2 b = true
    · simp only [selectBest]
      rw [if_pos hA]
      by_cases hEx : ∃ p ∈ rest, fracGt p.2 p0.2 = true
      · have hp0den : 0 < p0.2.den := fracGt_pos_den b hwfp0 hA
        rcases ih p0.1 p0.2 hwfrest hp0den hEx with
          ⟨pre', w, post', heq, hsel, hwb, hpre', hpost'⟩
        have hwfw : wfFrac w.2 := by
          refine hwfrest w ?_
          rw [heq]
          exact List.mem_append_right _ (List.mem_cons_self w post')
        refine ⟨p0 :: pre', w, post', by rw [heq, List.cons_append], hsel, ?_, ?_, hpost'⟩
        · exact fracGt_trans hwfw hwfp0 hbden hwb hA
        · intro p hp
          rcases List.mem_cons.mp hp with heqp | hp
          · left
            rw [heqp]
            exact hwb
          · rcases hpre' p hp with hl | hr
            · exact Or.inl hl
            · have hwfp : wfFrac p.2 := hwfrest p (by rw [heq]; exact List.mem_append_left _ hp)
              rcases lt_or_eq_of_le hwfp.2.1 with hpden | hpden0
              · exact Or.inl (fracGt_of_not_gt hwfw hwfp0 hpden hwb hr)
              · have hnum : p.2.num = 0 := hwfp.2.2 hpden0.symm
                exact Or.inr (fracGt_nan_le p.2 b hnum hpden0.symm)
      · have hall : ∀ p ∈ rest, fracGt p.2 p0.2 = false := by
          intro p hp
          rcases hv : fracGt p.2 p0.2 with _ | _
          · rfl
          · exact absurd ⟨p, hp, hv⟩ hEx
        refine ⟨[], p0, rest, rfl, ?_, hA, by simp, hall⟩
        exact selectBest_const p0.1 p0.2 rest hall
    · simp only [selectBest]
      rw [if_neg hA]
      have hex' : ∃ p ∈ rest, fracGt p.2 b = true := by
        rcases hex with ⟨p, hp, hgt⟩
        rcases List.mem_cons.mp hp with heqp | hp
        · rw [heqp] at hgt
          exact absurd hgt hA
        · exact ⟨p, hp, hgt⟩
      rcases ih best b hwfrest hbden hex' with
        ⟨pre', w, post', heq, hsel, hwb, hpre', hpost'⟩
      refine ⟨p0 :: pre', w, post', by rw [heq, List.cons_append], hsel, hwb, ?_, hpost'⟩
      intro p hp
      rcases List.mem_cons.mp hp with heqp | hp
      · right
        rw [heqp]
        exact Bool.eq_false_iff.mpr hA
      · exact hpre' p hp

/-- C6: ranking of the external API's candidates against a query term.
    Both sides are normalized (lowercased, non-alphanumerics stripped; the
    concrete conjunct shows the normalizer's output).  An item with a
    candidate title whose normalization equals the normalized query is
    selected outright.  Otherwise, over the flattened traversal of all
    (item, candidate-score) pairs in encounter order, the selected item is
    the one carrying the first score that no other candidate strictly
    exceeds — the highest score wins and every earlier candidate scored
    strictly lower (ties broken by encounter order), except degenerate
    0/0 scores (both normalized strings empty) which never win a
    comparison.  Scores follow the source formula — shorter length over
    longer length on substring containment, else common-prefix length over
    longer length scaled by one half (witnessed by the three concrete
    score conjuncts: 13/20 substring, 0/32 disjoint, 8/26 prefix) — and
    the concrete selections show the exact match winning among the
    claim's three candidates, the substring score 13/20 beating the
    disjoint score 0/32 in a non-exact pool, and a 13/18-vs-13/18 tie
    resolved to the first-encountered item. -/
theorem claim6_fuzzy_ranking_selection :
    (∀ q items,
      (∃ it ∈ items, ∃ t ∈ candidateTitles it, normTitle t = normTitle q) →
      ∃ it', bestJikanMatch q items = some it' ∧
        ∃ t ∈ candidateTitles it', normTitle t = normTitle q) ∧
    (∀ q it0 rest,
      (∀ it ∈ it0 :: rest, ∀ t ∈ candidateTitles it, normTitle t ≠ normTitle q) →
      (∃ p ∈ itemScores (normTitle q) (it0 :: rest), fracGt p.2 initialScore = true) →
      ∃ pre winner post,
        itemScores (normTitle q) (it0 :: rest) = pre ++ winner :: post ∧
        bestJikanMatch q (it0 :: rest) = some winner.1 ∧
        (∀ p ∈ itemScores (normTitle q) (it0 :: rest), fracGt p.2 winner.2 = false) ∧
        (∀ p ∈ pre, fracGt winner.2 p.2 = true ∨ (p.2.num = 0 ∧ p.2.den = 0))) ∧
    normTitle (str "Attack on Titan") = str "attackontitan" ∧
    jikanScore (normTitle (str "Attack on Titan"))
        (normTitle (str "Attack on Titan Season 2")) = { num := 13, den := 20 } ∧
    jikanScore (normTitle (str "Attack on Titan"))
        (normTitle (str "Shingeki no Kyojin")) = { num := 0, den := 32 } ∧
    jikanScore (normTitle (str "Attack on Titan"))
        (normTitle (str "Attack on Moon")) = { num := 8, den := 26 } ∧
    bestJikanMatch (str "Attack on Titan") [itemSNK, itemAOT2, itemAOT] = some itemAOT ∧
    bestJikanMatch (str "Attack on Titan") [itemSNK, itemAOT2] = some itemAOT2 ∧
    bestJikanMatch (str "Attack on Titan") [itemTieA, itemTieB] = some itemTieA := by
  refine ⟨?_, ?_, by decide, by decide, by decide, by decide, by decide, by decide,
    by decide⟩
  · intro q items h
    cases items with
    | nil => simp at h
    | cons it0 rest =>
      exact ⟨bestJikanGo (normTitle q) it0 initialScore (it0 :: rest), rfl,
        bestJikanGo_exact (normTitle q) (it0 :: rest) it0 initialScore h⟩
  · intro q it0 rest hne hex
    have hwfall : ∀ p ∈ itemScores (normTitle q) (it0 :: rest), wfFrac p.2 := by
      intro p hp
      rcases List.mem_flatMap.mp hp with ⟨it, _, hpm⟩
      rcases List.mem_map.mp hpm with ⟨t, _, hpe⟩
      rw [← hpe]
      exact jikanScore_wf _ _
    have hib : (0 : Int) < initialScore.den := by norm_num [initialScore]
    rcases selectBest_spec (itemScores (normTitle q) (it0 :: rest)) it0 initialScore
        hwfall hib hex with ⟨pre, w, post, heq, hsel, hwb, hpre, hpost⟩
    refine ⟨pre, w, post, heq, ?_, ?_, ?_⟩
    · show some (bestJikanGo (normTitle q) it0 initialScore (it0 :: rest)) = some w.1
      rw [bestJikanGo_eq_selectBest (normTitle q) (it0 :: rest) it0 initialScore hne,
        hsel]
    · intro p hp
      rw [heq] at hp
      rcases List.mem_append.mp hp with hppre | hpwp
      · rcases hpre p hppre with hl | hr
        · exact fracGt_asymm hl
        · have hwfp : wfFrac p.2 :=
            hwfall p (by rw [heq]; exact List.mem_append_left _ hppre)
          rcases fracGt_init_false_nan hwfp hr with ⟨hn, hd⟩
          exact fracGt_nan_le p.2 w.2 hn hd
      · rcases List.mem_cons.mp hpwp with heqp | hppost
        · rw [heqp]
          exact fracGt_irrefl w.2
        · exact hpost p hppost
    · intro p hppre
      rcases hpre p hppre with hl | hr
      · exact Or.inl hl
      · have hwfp : wfFrac p.2 :=
          hwfall p (by rw [heq]; exact List.mem_append_left _ hppre)
        exact Or.inr (fracGt_init_false_nan hwfp hr)

/-- C6 witness: the exact-match conjunct applied at the claim's three
    candidates, and the non-exact selection conjunct applied at the
    two-item pool without an exact match, all hypotheses discharged by
    evaluation. -/
theorem claim6_witness :
    (∃ it', bestJikanMatch (str "Attack on Titan") [itemSNK, itemAOT2, itemAOT] = some it' ∧
      ∃ t ∈ candidateTitles it', normTitle t = normTitle (str "Attack on Titan")) ∧
    (∃ pre winner post,
      itemScores (normTitle (str "Attack on Titan")) [itemSNK, itemAOT2] =
        pre ++ winner :: post ∧
      bestJikanMatch (str "Attack on Titan") [itemSNK, itemAOT2] = some winner.1 ∧
      (∀ p ∈ itemScores (normTitle (str "Attack on Titan")) [itemSNK, itemAOT2],
        fracGt p.2 winner.2 = false) ∧
      (∀ p ∈ pre, fracGt winner.2 p.2 = true ∨ (p.2.num = 0 ∧ p.2.den = 0))) :=
  ⟨claim6_fuzzy_ranking_selection.1 (str "Attack on Titan") [itemSNK, itemAOT2, itemAOT]
      (by decide),
   claim6_fuzzy_ranking_selection.2.1 (str "Attack on Titan") itemSNK [itemAOT2]
      (by decide) (by decide)⟩
